import Mathlib

/-!
Verification of the `component-metrics` UI event tracker
(`src/component-metrics.js`) against its natural-language specification.

The JavaScript module is shallowly embedded: JS objects holding event
properties become a Lean `Event` structure, the mutable `ComponentMetrics`
instance state becomes a `State` record threaded explicitly, and JS object
maps (string-keyed, insertion-ordered) become association lists with
first-match lookup and update-in-place-or-append semantics, matching JS
object key ordering.  A JS property that may be a string or `undefined`
(such as `event.page`) is a `JVal`; property access on an object with an
`undefined` key coerces the key to the string `"undefined"`, which `jkey`
reproduces.  Time (`+new Date()`) is passed in as an explicit integer
parameter per `registerEvent` call.  Exceptions thrown by validation are
an `Option RegError` result; a throw aborts the call before any instance
mutation (it occurs before `_augmentEvent` runs), so the paired state is
returned unchanged, mirroring source order.
-/

/-- A JavaScript value that is either a string or `undefined`, as stored in
the `page` / `component` properties of an event. -/
inductive JVal where
  | undef
  | str (s : String)
  deriving DecidableEq, Repr

/-- JS property-key coercion: using a value as an object key stringifies it;
`undefined` becomes the string `"undefined"`. -/
def jkey : JVal → String
  | .undef => "undefined"
  | .str s => s

/-- An event object.  `keys` records the property keys present on the raw
JS object at validation time (the caller-supplied keys, plus
`_finalization_mode` which `registerEvent` assigns before validating); the
remaining fields model the properties the engine reads and writes.  Fields
added after validation (`_event_id`, `time`, linkage and finalization
fields) are modelled as record fields only, since `keys` is never read
again after validation. -/
structure Event where
  keys : List String := []
  page : JVal := .undef
  component : JVal := .undef
  duration : Option Int := none
  mode : String := ""
  id : Int := 0
  time : Int := 0
  lastEventId : Option Int := none
  previousPage : Option JVal := none
  previousComponent : Option JVal := none
  nextPage : Option JVal := none
  nextComponent : Option JVal := none
  finalized : Bool := false
  deriving DecidableEq, Repr

/-- Per-(page, component) storage node of the hierarchical index
(`{ unfinalizedEvents: [], lastEvent: null }`). -/
structure CompStore where
  unfinalizedEvents : List Event := []
  lastEvent : Option Event := none
  deriving DecidableEq, Repr

/-- First-match lookup in an association list, as JS property access on an
object with string keys. -/
def lookupA {K : Type} [DecidableEq K] {β : Type} : List (K × β) → K → Option β
  | [], _ => none
  | (k, v) :: rest, key => if k = key then some v else lookupA rest key

/-- Update the value at a key in place if present (JS assignment to an
existing key keeps its position); no-op if the key is absent. -/
def updateA {K : Type} [DecidableEq K] {β : Type} : List (K × β) → K → (β → β) → List (K × β)
  | [], _, _ => []
  | (k, v) :: rest, key, f =>
    if k = key then (k, f v) :: rest else (k, v) :: updateA rest key f

/-- JS assignment `obj[key] = v`: overwrite in place if the key exists,
append otherwise (insertion order). -/
def setA {K : Type} [DecidableEq K] {β : Type} : List (K × β) → K → β → List (K × β)
  | [], key, v => [(key, v)]
  | (k, w) :: rest, key, v =>
    if k = key then (k, v) :: rest else (k, w) :: setA rest key v

/-- The whole mutable state of a `ComponentMetrics` instance (minus the
flush callbacks, modelled separately with the flush loop). -/
structure State where
  validProps : List String
  eventCount : Nat := 0
  lastEvent : Option Event := none
  lastPage : JVal := .str ""
  lastComponent : JVal := .str ""
  unfinalizedEvents : List (Int × Event) := []
  finalizedEvents : List Event := []
  pages : List (String × List (String × CompStore)) := []
  deriving DecidableEq, Repr

/-- The state of a freshly constructed instance with the given
`valid_props` configuration. -/
def initState (validProps : List String) : State :=
  { validProps := validProps }

def FINALIZE_IMMEDIATE : String := "immediate"
def FINALIZE_NEXT_EVENT : String := "next_event"
def FINALIZE_PAGE_CHANGE : String := "page_change"
def FINALIZE_NEXT_EVENT_SAME_COMPONENT : String := "next_event_same_component"

def FINALIZATION_MODES : List String :=
  [FINALIZE_IMMEDIATE, FINALIZE_NEXT_EVENT, FINALIZE_PAGE_CHANGE,
   FINALIZE_NEXT_EVENT_SAME_COMPONENT]

/-- `this._builtinProps` from the constructor. -/
def builtinProps : List String :=
  ["represented_object_type",
   "represented_object_id",
   "interaction_meaning",
   "interaction_gesture",
   "interaction_duration",
   "page",
   "component",
   "_finalization_mode"]

/-- The built-in key set as the spec words it in section 6, without
`_finalization_mode`.  Kept only to state claim C3 in the spec's own terms
and compare it with the source's `builtinProps`. -/
def specBuiltinProps : List String :=
  ["represented_object_type",
   "represented_object_id",
   "interaction_meaning",
   "interaction_gesture",
   "interaction_duration",
   "page",
   "component"]

/-- The two validation failures `_validateEvent` can throw. -/
inductive RegError where
  | invalidProperty (key : String)
  | invalidMode (mode : String)
  deriving DecidableEq, Repr

/-- `_validateEvent`: throw on the first property key outside
`_builtinProps` and `_validProps`, then throw if the finalization mode is
not one of the four recognized modes. -/
def validateEvent (validProps : List String) (keys : List String) (mode : String) :
    Option RegError :=
  match keys.find? (fun k => !(builtinProps.contains k || validProps.contains k)) with
  | some k => some (.invalidProperty k)
  | none =>
    if FINALIZATION_MODES.contains mode then none else some (.invalidMode mode)

/-- The pure field update `_finalizeEvent` performs on the event object:
set `next_page` / `next_component` from the causing event, set the
finalized flag, and set `duration` to the already-present value when
truthy (a JS number is falsy exactly when it is zero) and to
`newEvent.time - event.time` otherwise. -/
def finalizeUpd (e cause : Event) : Event :=
  { e with
    nextPage := some cause.page,
    nextComponent := some cause.component,
    finalized := true,
    duration := some (match e.duration with
      | some d => if d = 0 then cause.time - e.time else d
      | none => cause.time - e.time) }

/-- Removal of an event id from the hierarchical index: rebuild the
per-(page, component) open list without that id (no-op when the page or
component entry is absent, matching the truthiness guard). -/
def removeFromComp (pages : List (String × List (String × CompStore)))
    (P C : String) (id : Int) : List (String × List (String × CompStore)) :=
  updateA pages P (fun comps =>
    updateA comps C (fun cs =>
      { cs with unfinalizedEvents := cs.unfinalizedEvents.filter (fun y => y.id ≠ id) }))

/-- `_finalizeEvent(event, newEvent)`: delete from the flat open map,
remove from the hierarchical index, update the event's finalization
fields, and push it onto `finalizedEvents`. -/
def finalizeEvent (s : State) (e cause : Event) : State :=
  { s with
    unfinalizedEvents := s.unfinalizedEvents.filter (fun p => p.1 ≠ e.id),
    pages := removeFromComp s.pages (jkey e.page) (jkey e.component) e.id,
    finalizedEvents := s.finalizedEvents ++ [finalizeUpd e cause] }

/-- `openEventsFor`: the open list of a (page, component) pair, empty when
the pair has never been seen. -/
def openAt (s : State) (p c : String) : List Event :=
  match lookupA s.pages p with
  | none => []
  | some comps =>
    match lookupA comps c with
    | none => []
    | some cs => cs.unfinalizedEvents

/-- `_finalizeComponentEvents(event, page, component, eventTypes)`: guard
on the page and component entries existing, snapshot-filter the open list
by mode, then finalize each snapshot entry with `event` as cause. -/
def finalizeComponentEvents (s : State) (cause : Event) (P C : String)
    (eventTypes : List String) : State :=
  match lookupA s.pages P with
  | none => s
  | some comps =>
    match lookupA comps C with
    | none => s
    | some cs =>
      (cs.unfinalizedEvents.filter (fun x => eventTypes.contains x.mode)).foldl
        (fun acc x => finalizeEvent acc x cause) s

/-- The inner loop of `_finalizeNavChangeEvents`: finalize the
`next_event_same_component` and `page_change` events of each listed
component of page `pg`, with `e` as cause. -/
def sweepComps (e : Event) (pg : String) (s : State) (cps : List String) : State :=
  cps.foldl
    (fun acc2 cp =>
      finalizeComponentEvents acc2 e pg cp
        [FINALIZE_NEXT_EVENT_SAME_COMPONENT, FINALIZE_PAGE_CHANGE])
    s

/-- The outer loop of `_finalizeNavChangeEvents` over a page-key list:
skip the event's own page, and sweep every component of each other page,
reading the component keys from the current state as the source does. -/
def navFold (e : Event) (s : State) (pks : List String) : State :=
  pks.foldl
    (fun acc pg =>
      if pg = jkey e.page then acc
      else sweepComps e pg acc (((lookupA acc.pages pg).getD []).map Prod.fst))
    s

/-- `_finalizeNavChangeEvents(event)`: for every page other than the
event's page, for every component under that page, finalize the
`next_event_same_component` and `page_change` events there.  The outer
`for..in` iterates the page keys, which no finalization call changes, so
the key list is read off the entry state. -/
def finalizeNavChangeEvents (s : State) (e : Event) : State :=
  navFold e s (s.pages.map Prod.fst)

/-- Step 3 of `_finalizePreviousEvents`: if a last registered event exists
and its mode is `next_event`, finalize it with the new event as cause. -/
def checkLastEventNext (s : State) (e : Event) : State :=
  match s.lastEvent with
  | some le => if le.mode = FINALIZE_NEXT_EVENT then finalizeEvent s le e else s
  | none => s

/-- `_finalizePreviousEvents(event)`: the three-step sweep — cross-page
sweep, then same-page same-component sweep, then the global `next_event`
check on the last registered event. -/
def finalizePreviousEvents (s : State) (e : Event) : State :=
  checkLastEventNext
    (finalizeComponentEvents (finalizeNavChangeEvents s e) e (jkey e.page)
      (jkey e.component) [FINALIZE_NEXT_EVENT_SAME_COMPONENT]) e

/-- `_augmentEvent(event)`: assign `_event_id` (post-incrementing the
counter) and `time`, and copy linkage fields from the last event when one
exists.  Returns the augmented event together with the state carrying the
incremented counter. -/
def augmentEvent (s : State) (e : Event) (now : Int) : Event × State :=
  let e1 := { e with id := (s.eventCount : Int), time := now }
  let e2 := match s.lastEvent with
    | some le =>
      { e1 with lastEventId := some le.id, previousPage := some le.page,
                previousComponent := some le.component }
    | none => e1
  (e2, { s with eventCount := s.eventCount + 1 })

def emptyCompStore : CompStore := {}

/-- `_storeEvent(event)`: update `lastPage` / `lastComponent`, create the
page and component entries if missing, insert into the flat and
hierarchical open indices unless the mode is `immediate`, then set the
per-pair and global last-event pointers. -/
def storeEvent (s : State) (e : Event) : State :=
  let s1 := { s with lastPage := e.page, lastComponent := e.component }
  let P := jkey e.page
  let C := jkey e.component
  let pages1 := match lookupA s1.pages P with
    | none => setA s1.pages P []
    | some _ => s1.pages
  let pages2 := match lookupA pages1 P with
    | none => pages1
    | some comps =>
      match lookupA comps C with
      | none => setA pages1 P (setA comps C emptyCompStore)
      | some _ => pages1
  let s2 := { s1 with pages := pages2 }
  let s3 :=
    if e.mode ≠ FINALIZE_IMMEDIATE then
      { s2 with
        unfinalizedEvents := setA s2.unfinalizedEvents e.id e,
        pages := updateA s2.pages P (fun comps =>
          updateA comps C (fun cs =>
            { cs with unfinalizedEvents := cs.unfinalizedEvents ++ [e] })) }
    else s2
  let s4 := { s3 with pages := updateA s3.pages P (fun comps =>
      updateA comps C (fun cs => { cs with lastEvent := some e })) }
  { s4 with lastEvent := some e }

/-- The synthetic cause object `{page: "", component: "", _event_id: -1,
time: +new Date()}` used to finalize an `immediate`-mode event. -/
def syntheticCause (now : Int) : Event :=
  { page := .str "", component := .str "", id := -1, time := now }

/-- `config.finalization_mode` resolution: the configured mode when
supplied and truthy (a string is falsy exactly when empty), otherwise the
default `next_event`. -/
def resolveMode (cfgMode : Option String) : String :=
  match cfgMode with
  | none => FINALIZE_NEXT_EVENT
  | some m => if m = "" then FINALIZE_NEXT_EVENT else m

/-- The property keys visible on the event during validation:
`registerEvent` assigns `event._finalization_mode` first, creating that
key when the caller did not supply it. -/
def attachModeKey (keys : List String) : List String :=
  if keys.contains "_finalization_mode" then keys else keys ++ ["_finalization_mode"]

/-- The event object as it stands when `_validateEvent` runs: the resolved
finalization mode has been assigned (creating that property key when the
caller did not supply it). -/
def preparedEvent (event : Event) (cfgMode : Option String) : Event :=
  { event with mode := resolveMode cfgMode, keys := attachModeKey event.keys }

/-- The part of `registerEvent` that runs after validation succeeds:
augment, self-finalize when the mode is `immediate` (against the synthetic
cause, mutating the event object in place — the mutated object is what
later steps and the store see), run the three-step sweep with the event as
cause, then store it. -/
def registerEventOk (s : State) (e0 : Event) (now : Int) : State :=
  if (augmentEvent s e0 now).1.mode = FINALIZE_IMMEDIATE then
    storeEvent
      (finalizePreviousEvents
        (finalizeEvent (augmentEvent s e0 now).2 (augmentEvent s e0 now).1
          (syntheticCause now))
        (finalizeUpd (augmentEvent s e0 now).1 (syntheticCause now)))
      (finalizeUpd (augmentEvent s e0 now).1 (syntheticCause now))
  else
    storeEvent
      (finalizePreviousEvents (augmentEvent s e0 now).2 (augmentEvent s e0 now).1)
      (augmentEvent s e0 now).1

/-- `registerEvent(event, config)`: resolve the finalization mode onto the
event, validate, then augment / self-finalize / sweep / store.  The
validation throw happens before any instance mutation (it precedes
`_augmentEvent`), so the state is returned unchanged alongside the
error. -/
def registerEvent (s : State) (event : Event) (cfgMode : Option String) (now : Int) :
    State × Option RegError :=
  let e0 := preparedEvent event cfgMode
  match validateEvent s.validProps e0.keys e0.mode with
  | some err => (s, some err)
  | none => (registerEventOk s e0 now, none)

/-- A registered flush observer: given the batch, either returns normally
(`false`) or raises (`true`). -/
abbrev FlushCallback := List Event → Bool

/-- The callback loop of `_flushFinalizedEvents`: invoke each callback in
registration order with the batch; an exception propagates immediately.
Returns how many callbacks were invoked (the raising one included) and
whether an exception propagated. -/
def flushLoop : List FlushCallback → List Event → Nat × Bool
  | [], _ => (0, false)
  | cb :: rest, batch =>
    if cb batch then (1, true)
    else
      let r := flushLoop rest batch
      (r.1 + 1, r.2)

/-- Outcome of one `_flushFinalizedEvents` call. -/
structure FlushOutcome where
  invoked : Nat
  raised : Bool
  queue : List Event
  deriving DecidableEq, Repr

/-- `_flushFinalizedEvents`: run the callback loop over the current
backlog; the statement clearing `finalizedEvents` runs only when the loop
completes without an exception. -/
def flushFinalizedEvents (cbs : List FlushCallback) (queue : List Event) : FlushOutcome :=
  let r := flushLoop cbs queue
  { invoked := r.1, raised := r.2, queue := if r.2 then queue else [] }

/-- One registration request: the raw event, the optional configured mode,
and the clock reading for the call. -/
structure RegCall where
  event : Event
  cfgMode : Option String
  now : Int

/-- Run a sequence of `registerEvent` calls, collecting the `_event_id`
assigned by each successful registration (read off the stored last-event
pointer), in call order. -/
def registerAll : State → List RegCall → State × List Int
  | s, [] => (s, [])
  | s, call :: rest =>
    match (registerEvent s call.event call.cfgMode call.now).2,
        (registerEvent s call.event call.cfgMode call.now).1.lastEvent with
    | some _, _ => registerAll (registerEvent s call.event call.cfgMode call.now).1 rest
    | none, some le =>
      ((registerAll (registerEvent s call.event call.cfgMode call.now).1 rest).1,
        le.id :: (registerAll (registerEvent s call.event call.cfgMode call.now).1 rest).2)
    | none, none => registerAll (registerEvent s call.event call.cfgMode call.now).1 rest

/-- Well-formedness of the hierarchical index: page keys are distinct,
component keys under each page are distinct, open-event ids within each
open list are distinct, and every open event sits in the list keyed by its
own page and component.  These hold of every state the public interface
can produce and are what the sweep proofs rely on. -/
def WFpages (pages : List (String × List (String × CompStore))) : Prop :=
  (pages.map Prod.fst).Nodup ∧
  ∀ pc ∈ pages, ((pc.2.map Prod.fst).Nodup ∧
    ∀ cc ∈ pc.2, ((cc.2.unfinalizedEvents.map Event.id).Nodup ∧
      ∀ x ∈ cc.2.unfinalizedEvents, jkey x.page = pc.1 ∧ jkey x.component = cc.1))

/-- Well-formedness of a state, a property of its hierarchical index. -/
def WFStore (s : State) : Prop := WFpages s.pages

instance (pages : List (String × List (String × CompStore))) :
    Decidable (WFpages pages) := by
  unfold WFpages; infer_instance

instance (s : State) : Decidable (WFStore s) := by
  unfold WFStore; infer_instance

theorem lookupA_updateA_self {K : Type} [DecidableEq K] {β : Type}
    (l : List (K × β)) (k : K) (f : β → β) :
    lookupA (updateA l k f) k = (lookupA l k).map f := by
  induction l with
  | nil => rfl
  | cons hd tl ih =>
    obtain ⟨a, b⟩ := hd
    by_cases hak : a = k <;> simp [updateA, lookupA, hak, ih]

theorem lookupA_updateA_ne {K : Type} [DecidableEq K] {β : Type}
    (l : List (K × β)) (k k2 : K) (f : β → β) (h : k2 ≠ k) :
    lookupA (updateA l k f) k2 = lookupA l k2 := by
  induction l with
  | nil => rfl
  | cons hd tl ih =>
    obtain ⟨a, b⟩ := hd
    by_cases hak : a = k
    · subst hak
      simp [updateA, lookupA, Ne.symm h]
    · by_cases hak2 : a = k2 <;> simp [updateA, lookupA, hak, hak2, ih, h]

theorem mapFst_updateA {K : Type} [DecidableEq K] {β : Type}
    (l : List (K × β)) (k : K) (f : β → β) :
    (updateA l k f).map Prod.fst = l.map Prod.fst := by
  induction l with
  | nil => rfl
  | cons hd tl ih =>
    obtain ⟨a, b⟩ := hd
    by_cases hak : a = k <;> simp [updateA, hak, ih]

theorem mem_updateA {K : Type} [DecidableEq K] {β : Type}
    (l : List (K × β)) (k : K) (f : β → β) (pc : K × β) (h : pc ∈ updateA l k f) :
    pc ∈ l ∨ ∃ v, (k, v) ∈ l ∧ pc = (k, f v) := by
  induction l with
  | nil => simp [updateA] at h
  | cons hd tl ih =>
    obtain ⟨a, b⟩ := hd
    by_cases hak : a = k
    · subst hak
      simp only [updateA, if_true, eq_self_iff_true, List.mem_cons] at h
      rcases h with hA | hB
      · exact Or.inr ⟨b, by simp, hA⟩
      · exact Or.inl (List.mem_cons_of_mem _ hB)
    · simp only [updateA, if_neg hak, List.mem_cons] at h
      rcases h with hA | hB
      · exact Or.inl (by simp [hA])
      · rcases ih hB with h2 | ⟨v, hv, he⟩
        · exact Or.inl (List.mem_cons_of_mem _ h2)
        · exact Or.inr ⟨v, List.mem_cons_of_mem _ hv, he⟩

theorem lookupA_setA_self {K : Type} [DecidableEq K] {β : Type}
    (l : List (K × β)) (k : K) (v : β) :
    lookupA (setA l k v) k = some v := by
  induction l with
  | nil => simp [setA, lookupA]
  | cons hd tl ih =>
    obtain ⟨a, b⟩ := hd
    by_cases hak : a = k <;> simp [setA, lookupA, hak, ih]

theorem lookupA_setA_ne {K : Type} [DecidableEq K] {β : Type}
    (l : List (K × β)) (k k2 : K) (v : β) (h : k2 ≠ k) :
    lookupA (setA l k v) k2 = lookupA l k2 := by
  induction l with
  | nil => simp [setA, lookupA, Ne.symm h]
  | cons hd tl ih =>
    obtain ⟨a, b⟩ := hd
    by_cases hak : a = k
    · subst hak
      simp [setA, lookupA, Ne.symm h]
    · by_cases hak2 : a = k2 <;> simp [setA, lookupA, hak, hak2, ih, h]

theorem lookupA_mem {K : Type} [DecidableEq K] {β : Type}
    (l : List (K × β)) (k : K) (v : β) (h : lookupA l k = some v) : (k, v) ∈ l := by
  induction l with
  | nil => simp [lookupA] at h
  | cons hd tl ih =>
    obtain ⟨a, b⟩ := hd
    by_cases hak : a = k
    · subst hak
      simp only [lookupA, if_true, eq_self_iff_true, Option.some.injEq] at h
      subst h
      exact List.mem_cons_self _ _
    · simp only [lookupA, if_neg hak] at h
      exact List.mem_cons_of_mem _ (ih h)

theorem lookupA_eq_none {K : Type} [DecidableEq K] {β : Type}
    (l : List (K × β)) (k : K) :
    lookupA l k = none ↔ k ∉ l.map Prod.fst := by
  induction l with
  | nil => simp [lookupA]
  | cons hd tl ih =>
    obtain ⟨a, b⟩ := hd
    by_cases hak : a = k
    · subst hak; simp [lookupA]
    · simp [lookupA, hak, ih, Ne.symm hak]

/-- The key structure of the hierarchical index: page keys and, per page,
component keys.  Finalization never changes it. -/
def pagesShape (pages : List (String × List (String × CompStore))) :
    List (String × List String) :=
  pages.map (fun pc => (pc.1, pc.2.map Prod.fst))

theorem pagesShape_updateA (pages : List (String × List (String × CompStore)))
    (P : String) (f : List (String × CompStore) → List (String × CompStore))
    (hf : ∀ comps, (f comps).map Prod.fst = comps.map Prod.fst) :
    pagesShape (updateA pages P f) = pagesShape pages := by
  induction pages with
  | nil => rfl
  | cons hd tl ih =>
    obtain ⟨a, b⟩ := hd
    by_cases hak : a = P
    all_goals simp [updateA, pagesShape, hak, hf]
    all_goals simpa [pagesShape] using ih

theorem finalized_finalizeEvent (s : State) (e cause : Event) :
    (finalizeEvent s e cause).finalizedEvents = s.finalizedEvents ++ [finalizeUpd e cause] :=
  rfl

theorem lastEvent_finalizeEvent (s : State) (e cause : Event) :
    (finalizeEvent s e cause).lastEvent = s.lastEvent := rfl

theorem eventCount_finalizeEvent (s : State) (e cause : Event) :
    (finalizeEvent s e cause).eventCount = s.eventCount := rfl

theorem openAt_finalizeEvent_self (s : State) (e cause : Event) :
    openAt (finalizeEvent s e cause) (jkey e.page) (jkey e.component)
      = (openAt s (jkey e.page) (jkey e.component)).filter (fun y => y.id ≠ e.id) := by
  unfold openAt finalizeEvent removeFromComp
  simp only [lookupA_updateA_self]
  cases h1 : lookupA s.pages (jkey e.page) with
  | none => simp
  | some comps =>
    simp only [Option.map_some, lookupA_updateA_self]
    cases h2 : lookupA comps (jkey e.component) with
    | none => simp [lookupA_updateA_self, h2]
    | some cs => simp [lookupA_updateA_self, h2]

theorem openAt_finalizeEvent_other (s : State) (e cause : Event) (p q : String)
    (h : ¬(p = jkey e.page ∧ q = jkey e.component)) :
    openAt (finalizeEvent s e cause) p q = openAt s p q := by
  unfold openAt finalizeEvent removeFromComp
  by_cases hp : p = jkey e.page
  · have hq : q ≠ jkey e.component := fun hq2 => h ⟨hp, hq2⟩
    subst hp
    simp only [lookupA_updateA_self]
    cases h1 : lookupA s.pages (jkey e.page) with
    | none => simp
    | some comps => simp [lookupA_updateA_ne _ _ _ _ hq, h1]
  · simp [lookupA_updateA_ne _ _ _ _ hp]

theorem openAt_finalizeEvent_sub (s : State) (e cause : Event) (p q : String)
    (x : Event) (hx : x ∈ openAt (finalizeEvent s e cause) p q) : x ∈ openAt s p q := by
  by_cases h : p = jkey e.page ∧ q = jkey e.component
  · obtain ⟨hp, hq⟩ := h
    subst hp; subst hq
    rw [openAt_finalizeEvent_self] at hx
    exact List.mem_of_mem_filter hx
  · rwa [openAt_finalizeEvent_other _ _ _ _ _ h] at hx

theorem flat_finalizeEvent_sub (s : State) (e cause : Event) (kv : Int × Event)
    (h : kv ∈ (finalizeEvent s e cause).unfinalizedEvents) : kv ∈ s.unfinalizedEvents :=
  List.mem_of_mem_filter h

theorem shape_finalizeEvent (s : State) (e cause : Event) :
    pagesShape (finalizeEvent s e cause).pages = pagesShape s.pages := by
  unfold finalizeEvent removeFromComp
  exact pagesShape_updateA _ _ _ (fun comps => mapFst_updateA ..)

theorem WF_finalizeEvent (s : State) (e cause : Event) (hWF : WFpages s.pages) :
    WFpages (finalizeEvent s e cause).pages := by
  obtain ⟨hnd, hrest⟩ := hWF
  unfold finalizeEvent removeFromComp
  constructor
  · simpa [mapFst_updateA] using hnd
  · intro pc hpc
    rcases mem_updateA _ _ _ _ hpc with hmem | ⟨comps, hcm, hpc2⟩
    · exact hrest pc hmem
    · subst hpc2
      obtain ⟨hndc, hcc⟩ := hrest _ hcm
      constructor
      · simpa [mapFst_updateA] using hndc
      · intro cc hccm
        rcases mem_updateA _ _ _ _ hccm with hmem2 | ⟨cs, hcs, hcc2⟩
        · exact hcc cc hmem2
        · subst hcc2
          obtain ⟨hndi, hxs⟩ := hcc _ hcs
          refine ⟨?_, ?_⟩
          · exact ((List.filter_sublist _).map Event.id).nodup hndi
          · intro x hxf
            exact hxs x (List.mem_of_mem_filter hxf)

/-- The finalize-each loop that `_finalizeComponentEvents` runs over its
snapshot of matching open events. -/
def finalizeList (cause : Event) (s : State) (ts : List Event) : State :=
  ts.foldl (fun acc x => finalizeEvent acc x cause) s

theorem finalizeComponentEvents_eq (s : State) (cause : Event) (P C : String)
    (tys : List String) :
    finalizeComponentEvents s cause P C tys
      = finalizeList cause s ((openAt s P C).filter (fun x => tys.contains x.mode)) := by
  unfold finalizeComponentEvents finalizeList openAt
  cases h1 : lookupA s.pages P with
  | none => simp
  | some comps =>
    cases h2 : lookupA comps C with
    | none => simp [h2]
    | some cs => simp [h2]

theorem finalized_finalizeList (cause : Event) (ts : List Event) (s : State) :
    (finalizeList cause s ts).finalizedEvents
      = s.finalizedEvents ++ ts.map (fun x => finalizeUpd x cause) := by
  induction ts generalizing s with
  | nil => simp [finalizeList]
  | cons t ts ih =>
    simp [finalizeList] at ih ⊢
    rw [ih, finalized_finalizeEvent]
    simp

theorem lastEvent_finalizeList (cause : Event) (ts : List Event) (s : State) :
    (finalizeList cause s ts).lastEvent = s.lastEvent := by
  induction ts generalizing s with
  | nil => rfl
  | cons t ts ih =>
    simp only [finalizeList, List.foldl_cons] at ih ⊢
    rw [ih, lastEvent_finalizeEvent]

theorem eventCount_finalizeList (cause : Event) (ts : List Event) (s : State) :
    (finalizeList cause s ts).eventCount = s.eventCount := by
  induction ts generalizing s with
  | nil => rfl
  | cons t ts ih =>
    simp only [finalizeList, List.foldl_cons] at ih ⊢
    rw [ih, eventCount_finalizeEvent]

theorem shape_finalizeList (cause : Event) (ts : List Event) (s : State) :
    pagesShape (finalizeList cause s ts).pages = pagesShape s.pages := by
  induction ts generalizing s with
  | nil => rfl
  | cons t ts ih =>
    simp only [finalizeList, List.foldl_cons] at ih ⊢
    rw [ih, shape_finalizeEvent]

theorem WF_finalizeList (cause : Event) (ts : List Event) (s : State)
    (hWF : WFpages s.pages) : WFpages (finalizeList cause s ts).pages := by
  induction ts generalizing s with
  | nil => exact hWF
  | cons t ts ih =>
    simp only [finalizeList, List.foldl_cons] at ih ⊢
    exact ih _ (WF_finalizeEvent _ _ _ hWF)

theorem openAt_finalizeList_other (cause : Event) (ts : List Event) (s : State)
    (p q : String) (h : ∀ x ∈ ts, ¬(p = jkey x.page ∧ q = jkey x.component)) :
    openAt (finalizeList cause s ts) p q = openAt s p q := by
  induction ts generalizing s with
  | nil => rfl
  | cons t ts ih =>
    simp only [finalizeList, List.foldl_cons] at ih ⊢
    rw [ih _ (fun x hx => h x (List.mem_cons_of_mem _ hx)),
      openAt_finalizeEvent_other _ _ _ _ _ (h t (List.mem_cons_self _ _))]

theorem openAt_finalizeList_sub (cause : Event) (ts : List Event) (s : State)
    (p q : String) (x : Event) (hx : x ∈ openAt (finalizeList cause s ts) p q) :
    x ∈ openAt s p q := by
  induction ts generalizing s with
  | nil => exact hx
  | cons t ts ih =>
    simp only [finalizeList, List.foldl_cons] at hx
    exact openAt_finalizeEvent_sub _ _ _ _ _ _ (ih _ hx)

theorem flat_finalizeList_sub (cause : Event) (ts : List Event) (s : State)
    (kv : Int × Event) (hkv : kv ∈ (finalizeList cause s ts).unfinalizedEvents) :
    kv ∈ s.unfinalizedEvents := by
  induction ts generalizing s with
  | nil => exact hkv
  | cons t ts ih =>
    simp only [finalizeList, List.foldl_cons] at hkv
    exact flat_finalizeEvent_sub _ _ _ _ (ih _ hkv)

theorem openAt_finalizeList_self (cause : Event) (ts : List Event) (s : State)
    (P C : String) (h : ∀ x ∈ ts, jkey x.page = P ∧ jkey x.component = C) :
    openAt (finalizeList cause s ts) P C
      = (openAt s P C).filter (fun y => ts.all (fun x => y.id != x.id)) := by
  induction ts generalizing s with
  | nil => simp [finalizeList]
  | cons t ts ih =>
    simp only [finalizeList, List.foldl_cons] at ih ⊢
    obtain ⟨hP, hC⟩ := h t (List.mem_cons_self _ _)
    rw [ih _ (fun x hx => h x (List.mem_cons_of_mem _ hx))]
    have hself : openAt (finalizeEvent s t cause) P C
        = (openAt s P C).filter (fun y => y.id ≠ t.id) := by
      rw [← hP, ← hC]
      exact openAt_finalizeEvent_self s t cause
    rw [hself, List.filter_filter]
    apply List.filter_congr
    intro y hy
    by_cases hid : y.id = t.id <;> simp [hid]

theorem WF_openAt (s : State) (hWF : WFpages s.pages) (P C : String) :
    ((openAt s P C).map Event.id).Nodup ∧
      ∀ x ∈ openAt s P C, jkey x.page = P ∧ jkey x.component = C := by
  unfold openAt
  cases h1 : lookupA s.pages P with
  | none => simp
  | some comps =>
    cases h2 : lookupA comps C with
    | none => simp [h2]
    | some cs =>
      simp only [h2]
      have hm1 := lookupA_mem _ _ _ h1
      have hm2 := lookupA_mem _ _ _ h2
      obtain ⟨hndc, hcc⟩ := hWF.2 _ hm1
      obtain ⟨hndi, hxs⟩ := hcc _ hm2
      exact ⟨hndi, hxs⟩

theorem finalized_finalizeComponentEvents (s : State) (cause : Event) (P C : String)
    (tys : List String) :
    (finalizeComponentEvents s cause P C tys).finalizedEvents
      = s.finalizedEvents
        ++ ((openAt s P C).filter (fun x => tys.contains x.mode)).map
            (fun x => finalizeUpd x cause) := by
  rw [finalizeComponentEvents_eq, finalized_finalizeList]

theorem lastEvent_finalizeComponentEvents (s : State) (cause : Event) (P C : String)
    (tys : List String) :
    (finalizeComponentEvents s cause P C tys).lastEvent = s.lastEvent := by
  rw [finalizeComponentEvents_eq, lastEvent_finalizeList]

theorem eventCount_finalizeComponentEvents (s : State) (cause : Event) (P C : String)
    (tys : List String) :
    (finalizeComponentEvents s cause P C tys).eventCount = s.eventCount := by
  rw [finalizeComponentEvents_eq, eventCount_finalizeList]

theorem shape_finalizeComponentEvents (s : State) (cause : Event) (P C : String)
    (tys : List String) :
    pagesShape (finalizeComponentEvents s cause P C tys).pages = pagesShape s.pages := by
  rw [finalizeComponentEvents_eq, shape_finalizeList]

theorem WF_finalizeComponentEvents (s : State) (cause : Event) (P C : String)
    (tys : List String) (hWF : WFpages s.pages) :
    WFpages (finalizeComponentEvents s cause P C tys).pages := by
  rw [finalizeComponentEvents_eq]
  exact WF_finalizeList _ _ _ hWF

theorem openAt_finalizeComponentEvents_sub (s : State) (cause : Event) (P C : String)
    (tys : List String) (p q : String) (x : Event)
    (hx : x ∈ openAt (finalizeComponentEvents s cause P C tys) p q) : x ∈ openAt s p q := by
  rw [finalizeComponentEvents_eq] at hx
  exact openAt_finalizeList_sub _ _ _ _ _ _ hx

theorem flat_finalizeComponentEvents_sub (s : State) (cause : Event) (P C : String)
    (tys : List String) (kv : Int × Event)
    (hkv : kv ∈ (finalizeComponentEvents s cause P C tys).unfinalizedEvents) :
    kv ∈ s.unfinalizedEvents := by
  rw [finalizeComponentEvents_eq] at hkv
  exact flat_finalizeList_sub _ _ _ _ hkv

theorem openAt_finalizeComponentEvents_other (s : State) (cause : Event) (P C : String)
    (tys : List String) (p q : String) (hWF : WFpages s.pages) (h : ¬(p = P ∧ q = C)) :
    openAt (finalizeComponentEvents s cause P C tys) p q = openAt s p q := by
  obtain ⟨hnd, hkeys⟩ := WF_openAt s hWF P C
  rw [finalizeComponentEvents_eq]
  apply openAt_finalizeList_other
  intro x hx
  obtain ⟨hP, hC⟩ := hkeys x (List.mem_of_mem_filter hx)
  rw [hP, hC]
  exact h

theorem openAt_finalizeComponentEvents_self (s : State) (cause : Event) (P C : String)
    (tys : List String) (hWF : WFpages s.pages) :
    openAt (finalizeComponentEvents s cause P C tys) P C
      = (openAt s P C).filter (fun y => !(tys.contains y.mode)) := by
  obtain ⟨hnd, hkeys⟩ := WF_openAt s hWF P C
  rw [finalizeComponentEvents_eq]
  rw [openAt_finalizeList_self _ _ _ _ _ (fun x hx => hkeys x (List.mem_of_mem_filter hx))]
  apply List.filter_congr
  intro y hy
  rw [Bool.eq_iff_iff]
  simp only [List.all_eq_true, List.mem_filter, bne_iff_ne, ne_eq, Bool.not_eq_true',
    and_imp]
  constructor
  · intro hall
    by_contra hcon
    have hmem : tys.contains y.mode = true := by
      cases hcm : tys.contains y.mode
      · exact absurd hcm hcon
      · rfl
    exact hall y hy hmem rfl
  · intro hnotin x hxl hxm heq
    have hxy : x = y := List.inj_on_of_nodup_map hnd hxl hy (by rw [heq])
    subst hxy
    rw [hnotin] at hxm
    exact Bool.false_ne_true hxm

theorem mem_finalized_finalizeComponentEvents (s : State) (cause : Event) (P C : String)
    (tys : List String) (x : Event) (hx : x ∈ openAt s P C)
    (hm : tys.contains x.mode) :
    finalizeUpd x cause ∈ (finalizeComponentEvents s cause P C tys).finalizedEvents := by
  rw [finalized_finalizeComponentEvents]
  apply List.mem_append_right
  exact List.mem_map_of_mem _ (List.mem_filter.mpr ⟨hx, hm⟩)

theorem lastEvent_sweepComps (e : Event) (pg : String) (cps : List String) (s : State) :
    (sweepComps e pg s cps).lastEvent = s.lastEvent := by
  induction cps generalizing s with
  | nil => rfl
  | cons cp cps ih =>
    simp only [sweepComps, List.foldl_cons] at ih ⊢
    rw [ih, lastEvent_finalizeComponentEvents]

theorem eventCount_sweepComps (e : Event) (pg : String) (cps : List String) (s : State) :
    (sweepComps e pg s cps).eventCount = s.eventCount := by
  induction cps generalizing s with
  | nil => rfl
  | cons cp cps ih =>
    simp only [sweepComps, List.foldl_cons] at ih ⊢
    rw [ih, eventCount_finalizeComponentEvents]

theorem shape_sweepComps (e : Event) (pg : String) (cps : List String) (s : State) :
    pagesShape (sweepComps e pg s cps).pages = pagesShape s.pages := by
  induction cps generalizing s with
  | nil => rfl
  | cons cp cps ih =>
    simp only [sweepComps, List.foldl_cons] at ih ⊢
    rw [ih, shape_finalizeComponentEvents]

theorem WF_sweepComps (e : Event) (pg : String) (cps : List String) (s : State)
    (hWF : WFpages s.pages) : WFpages (sweepComps e pg s cps).pages := by
  induction cps generalizing s with
  | nil => exact hWF
  | cons cp cps ih =>
    simp only [sweepComps, List.foldl_cons] at ih ⊢
    exact ih _ (WF_finalizeComponentEvents _ _ _ _ _ hWF)

theorem openAt_sweepComps_sub (e : Event) (pg : String) (cps : List String) (s : State)
    (p q : String) (x : Event) (hx : x ∈ openAt (sweepComps e pg s cps) p q) :
    x ∈ openAt s p q := by
  induction cps generalizing s with
  | nil => exact hx
  | cons cp cps ih =>
    simp only [sweepComps, List.foldl_cons] at hx
    exact openAt_finalizeComponentEvents_sub _ _ _ _ _ _ _ _ (ih _ hx)

theorem flat_sweepComps_sub (e : Event) (pg : String) (cps : List String) (s : State)
    (kv : Int × Event) (hkv : kv ∈ (sweepComps e pg s cps).unfinalizedEvents) :
    kv ∈ s.unfinalizedEvents := by
  induction cps generalizing s with
  | nil => exact hkv
  | cons cp cps ih =>
    simp only [sweepComps, List.foldl_cons] at hkv
    exact flat_finalizeComponentEvents_sub _ _ _ _ _ _ (ih _ hkv)

theorem finalizedExt_sweepComps (e : Event) (pg : String) (cps : List String) (s : State) :
    ∃ l, (sweepComps e pg s cps).finalizedEvents = s.finalizedEvents ++ l := by
  induction cps generalizing s with
  | nil => exact ⟨[], by simp [sweepComps]⟩
  | cons cp cps ih =>
    simp only [sweepComps, List.foldl_cons] at ih ⊢
    obtain ⟨l2, hl2⟩ := ih (finalizeComponentEvents s e pg cp
      [FINALIZE_NEXT_EVENT_SAME_COMPONENT, FINALIZE_PAGE_CHANGE])
    refine ⟨((openAt s pg cp).filter (fun x =>
        [FINALIZE_NEXT_EVENT_SAME_COMPONENT, FINALIZE_PAGE_CHANGE].contains x.mode)).map
        (fun x => finalizeUpd x e) ++ l2, ?_⟩
    rw [hl2, finalized_finalizeComponentEvents, List.append_assoc]

theorem openAt_sweepComps_otherpage (e : Event) (pg : String) (cps : List String)
    (s : State) (p q : String) (hWF : WFpages s.pages) (hp : p ≠ pg) :
    openAt (sweepComps e pg s cps) p q = openAt s p q := by
  induction cps generalizing s with
  | nil => rfl
  | cons cp cps ih =>
    simp only [sweepComps, List.foldl_cons] at ih ⊢
    rw [ih _ (WF_finalizeComponentEvents _ _ _ _ _ hWF),
      openAt_finalizeComponentEvents_other _ _ _ _ _ _ _ hWF (fun hc => hp hc.1)]

theorem openAt_sweepComps_samepage (e : Event) (pg : String) (cps : List String)
    (s : State) (q : String) (hWF : WFpages s.pages) (hnd : cps.Nodup) :
    openAt (sweepComps e pg s cps) pg q
      = if q ∈ cps then
          (openAt s pg q).filter (fun y =>
            !([FINALIZE_NEXT_EVENT_SAME_COMPONENT, FINALIZE_PAGE_CHANGE].contains y.mode))
        else openAt s pg q := by
  induction cps generalizing s with
  | nil => simp [sweepComps]
  | cons cp cps ih =>
    simp only [sweepComps, List.foldl_cons] at ih ⊢
    have hWF2 := WF_finalizeComponentEvents s e pg cp
      [FINALIZE_NEXT_EVENT_SAME_COMPONENT, FINALIZE_PAGE_CHANGE] hWF
    by_cases hq : q = cp
    · subst hq
      have hnotin : q ∉ cps := by
        intro hmem
        exact (List.nodup_cons.mp hnd).1 hmem
      rw [ih _ hWF2 (List.nodup_cons.mp hnd).2]
      rw [if_neg hnotin, if_pos (List.mem_cons_self _ _)]
      exact openAt_finalizeComponentEvents_self _ _ _ _ _ hWF
    · rw [ih _ hWF2 (List.nodup_cons.mp hnd).2]
      rw [openAt_finalizeComponentEvents_other _ _ _ _ _ _ _ hWF
        (fun hc => hq hc.2)]
      by_cases hqin : q ∈ cps
      · rw [if_pos hqin, if_pos (List.mem_cons_of_mem _ hqin)]
      · rw [if_neg hqin, if_neg (by simp [hq, hqin])]

theorem mem_finalized_sweepComps (e : Event) (pg : String) (cps : List String)
    (s : State) (q : String) (x : Event) (hWF : WFpages s.pages) (hq : q ∈ cps)
    (hx : x ∈ openAt s pg q)
    (hm : [FINALIZE_NEXT_EVENT_SAME_COMPONENT, FINALIZE_PAGE_CHANGE].contains x.mode) :
    finalizeUpd x e ∈ (sweepComps e pg s cps).finalizedEvents := by
  induction cps generalizing s with
  | nil => exact absurd hq (List.not_mem_nil _)
  | cons cp cps ih =>
    simp only [sweepComps, List.foldl_cons] at ih ⊢
    have hWF2 := WF_finalizeComponentEvents s e pg cp
      [FINALIZE_NEXT_EVENT_SAME_COMPONENT, FINALIZE_PAGE_CHANGE] hWF
    by_cases hqc : q = cp
    · subst hqc
      have hmem := mem_finalized_finalizeComponentEvents s e pg q
        [FINALIZE_NEXT_EVENT_SAME_COMPONENT, FINALIZE_PAGE_CHANGE] x hx hm
      obtain ⟨l2, hl2⟩ := finalizedExt_sweepComps e pg cps
        (finalizeComponentEvents s e pg q
          [FINALIZE_NEXT_EVENT_SAME_COMPONENT, FINALIZE_PAGE_CHANGE])
      simp only [sweepComps] at hl2
      rw [hl2]
      exact List.mem_append_left _ hmem
    · have hq2 : q ∈ cps := by
        rcases List.mem_cons.mp hq with h1 | h1
        · exact absurd h1 hqc
        · exact h1
      refine ih _ hWF2 hq2 ?_
      rw [openAt_finalizeComponentEvents_other _ _ _ _ _ _ _ hWF (fun hc => hqc hc.2)]
      exact hx

theorem compKeys_nodup (pages : List (String × List (String × CompStore)))
    (hWF : WFpages pages) (pg : String) :
    ((((lookupA pages pg).getD []).map Prod.fst)).Nodup := by
  cases h1 : lookupA pages pg with
  | none => simp
  | some comps =>
    simp only [Option.getD_some]
    exact (hWF.2 _ (lookupA_mem _ _ _ h1)).1

theorem openAt_mem_keys (s : State) (p q : String) (x : Event)
    (hx : x ∈ openAt s p q) :
    ∃ comps, lookupA s.pages p = some comps ∧ q ∈ comps.map Prod.fst := by
  unfold openAt at hx
  split at hx
  · exact absurd hx (List.not_mem_nil x)
  · next comps h1 =>
    split at hx
    · exact absurd hx (List.not_mem_nil x)
    · next cs h2 =>
      exact ⟨comps, h1, List.mem_map_of_mem Prod.fst (lookupA_mem _ _ _ h2)⟩

theorem openAt_eq_nil_of_not_key (s : State) (p q : String)
    (h : ∀ comps, lookupA s.pages p = some comps → q ∉ comps.map Prod.fst) :
    openAt s p q = [] := by
  unfold openAt
  split
  · rfl
  · next comps h1 =>
    split
    · rfl
    · next cs h2 =>
      exact absurd (List.mem_map_of_mem Prod.fst (lookupA_mem _ _ _ h2)) (h comps h1)

theorem openAt_sweepComps_full (e : Event) (pg : String) (s : State) (q : String)
    (hWF : WFpages s.pages) :
    openAt (sweepComps e pg s (((lookupA s.pages pg).getD []).map Prod.fst)) pg q
      = (openAt s pg q).filter (fun y =>
          !([FINALIZE_NEXT_EVENT_SAME_COMPONENT, FINALIZE_PAGE_CHANGE].contains y.mode)) := by
  rw [openAt_sweepComps_samepage _ _ _ _ _ hWF (compKeys_nodup _ hWF pg)]
  by_cases hq : q ∈ ((lookupA s.pages pg).getD []).map Prod.fst
  · rw [if_pos hq]
  · rw [if_neg hq]
    have hempty : openAt s pg q = [] := by
      apply openAt_eq_nil_of_not_key
      intro comps hc hmem
      rw [hc] at hq
      exact hq (by simpa using hmem)
    rw [hempty]
    rfl

theorem navFold_cons (e : Event) (s : State) (pg : String) (pks : List String) :
    navFold e s (pg :: pks)
      = navFold e
          (if pg = jkey e.page then s
           else sweepComps e pg s (((lookupA s.pages pg).getD []).map Prod.fst))
          pks := by
  by_cases hpg : pg = jkey e.page
  · simp only [navFold, List.foldl_cons, if_pos hpg]
  · simp only [navFold, List.foldl_cons, if_neg hpg]

theorem lastEvent_navFold (e : Event) (pks : List String) (s : State) :
    (navFold e s pks).lastEvent = s.lastEvent := by
  induction pks generalizing s with
  | nil => rfl
  | cons pg pks ih =>
    simp only [navFold, List.foldl_cons] at ih ⊢
    by_cases hpg : pg = jkey e.page
    · rw [if_pos hpg]; exact ih s
    · rw [if_neg hpg, ih, lastEvent_sweepComps]

theorem eventCount_navFold (e : Event) (pks : List String) (s : State) :
    (navFold e s pks).eventCount = s.eventCount := by
  induction pks generalizing s with
  | nil => rfl
  | cons pg pks ih =>
    simp only [navFold, List.foldl_cons] at ih ⊢
    by_cases hpg : pg = jkey e.page
    · rw [if_pos hpg]; exact ih s
    · rw [if_neg hpg, ih, eventCount_sweepComps]

theorem WF_navFold (e : Event) (pks : List String) (s : State)
    (hWF : WFpages s.pages) : WFpages (navFold e s pks).pages := by
  induction pks generalizing s with
  | nil => exact hWF
  | cons pg pks ih =>
    simp only [navFold, List.foldl_cons] at ih ⊢
    by_cases hpg : pg = jkey e.page
    · rw [if_pos hpg]; exact ih s hWF
    · rw [if_neg hpg]; exact ih _ (WF_sweepComps _ _ _ _ hWF)

theorem openAt_navFold_sub (e : Event) (pks : List String) (s : State)
    (p q : String) (x : Event) (hx : x ∈ openAt (navFold e s pks) p q) :
    x ∈ openAt s p q := by
  induction pks generalizing s with
  | nil => exact hx
  | cons pg pks ih =>
    simp only [navFold, List.foldl_cons] at hx
    by_cases hpg : pg = jkey e.page
    · rw [if_pos hpg] at hx; exact ih s hx
    · rw [if_neg hpg] at hx
      exact openAt_sweepComps_sub _ _ _ _ _ _ _ (ih _ hx)

theorem flat_navFold_sub (e : Event) (pks : List String) (s : State)
    (kv : Int × Event) (hkv : kv ∈ (navFold e s pks).unfinalizedEvents) :
    kv ∈ s.unfinalizedEvents := by
  induction pks generalizing s with
  | nil => exact hkv
  | cons pg pks ih =>
    simp only [navFold, List.foldl_cons] at hkv
    by_cases hpg : pg = jkey e.page
    · rw [if_pos hpg] at hkv; exact ih s hkv
    · rw [if_neg hpg] at hkv
      exact flat_sweepComps_sub _ _ _ _ _ (ih _ hkv)

theorem finalizedExt_navFold (e : Event) (pks : List String) (s : State) :
    ∃ l, (navFold e s pks).finalizedEvents = s.finalizedEvents ++ l := by
  induction pks generalizing s with
  | nil => exact ⟨[], by simp [navFold]⟩
  | cons pg pks ih =>
    simp only [navFold, List.foldl_cons] at ih ⊢
    by_cases hpg : pg = jkey e.page
    · rw [if_pos hpg]; exact ih s
    · rw [if_neg hpg]
      obtain ⟨l1, hl1⟩ := finalizedExt_sweepComps e pg
        (((lookupA s.pages pg).getD []).map Prod.fst) s
      obtain ⟨l2, hl2⟩ := ih (sweepComps e pg s (((lookupA s.pages pg).getD []).map Prod.fst))
      refine ⟨l1 ++ l2, ?_⟩
      rw [hl2, hl1, List.append_assoc]

theorem openAt_navFold_eventpage (e : Event) (pks : List String) (s : State)
    (q : String) (hWF : WFpages s.pages) :
    openAt (navFold e s pks) (jkey e.page) q = openAt s (jkey e.page) q := by
  induction pks generalizing s with
  | nil => rfl
  | cons pg pks ih =>
    simp only [navFold, List.foldl_cons] at ih ⊢
    by_cases hpg : pg = jkey e.page
    · rw [if_pos hpg]; exact ih s hWF
    · rw [if_neg hpg, ih _ (WF_sweepComps _ _ _ _ hWF),
        openAt_sweepComps_otherpage _ _ _ _ _ _ hWF (fun hc => hpg hc.symm)]

theorem openAt_navFold_notin (e : Event) (pks : List String) (s : State)
    (p q : String) (hWF : WFpages s.pages) (hpni : p ∉ pks) :
    openAt (navFold e s pks) p q = openAt s p q := by
  induction pks generalizing s with
  | nil => rfl
  | cons pg pks ih =>
    simp only [navFold, List.foldl_cons] at ih ⊢
    have hne : p ≠ pg := fun hc => hpni (hc ▸ List.mem_cons_self _ _)
    have hpni2 : p ∉ pks := fun hc => hpni (List.mem_cons_of_mem _ hc)
    by_cases hpg : pg = jkey e.page
    · rw [if_pos hpg]; exact ih s hWF hpni2
    · rw [if_neg hpg, ih _ (WF_sweepComps _ _ _ _ hWF) hpni2,
        openAt_sweepComps_otherpage _ _ _ _ _ _ hWF hne]

theorem openAt_navFold_target (e : Event) (pks : List String) (s : State)
    (p q : String) (hWF : WFpages s.pages) (hnd : pks.Nodup)
    (hp : p ≠ jkey e.page) (hpin : p ∈ pks) :
    openAt (navFold e s pks) p q
      = (openAt s p q).filter (fun y =>
          !([FINALIZE_NEXT_EVENT_SAME_COMPONENT, FINALIZE_PAGE_CHANGE].contains y.mode)) := by
  induction pks generalizing s with
  | nil => exact absurd hpin (List.not_mem_nil _)
  | cons pg pks ih =>
    rw [navFold_cons]
    by_cases hpg : pg = p
    · subst hpg
      rw [if_neg hp]
      have hpni : pg ∉ pks := (List.nodup_cons.mp hnd).1
      rw [openAt_navFold_notin e pks _ pg q (WF_sweepComps _ _ _ _ hWF) hpni]
      exact openAt_sweepComps_full e pg s q hWF
    · have hpin2 : p ∈ pks := by
        rcases List.mem_cons.mp hpin with h1 | h1
        · exact absurd h1.symm hpg
        · exact h1
      by_cases hpge : pg = jkey e.page
      · rw [if_pos hpge]; exact ih s hWF (List.nodup_cons.mp hnd).2 hpin2
      · rw [if_neg hpge,
          ih _ (WF_sweepComps _ _ _ _ hWF) (List.nodup_cons.mp hnd).2 hpin2,
          openAt_sweepComps_otherpage _ _ _ _ _ _ hWF (fun hc => hpg hc.symm)]

theorem mem_finalized_navFold (e : Event) (pks : List String) (s : State)
    (p q : String) (x : Event) (hWF : WFpages s.pages)
    (hp : p ≠ jkey e.page) (hpin : p ∈ pks) (hx : x ∈ openAt s p q)
    (hm : [FINALIZE_NEXT_EVENT_SAME_COMPONENT, FINALIZE_PAGE_CHANGE].contains x.mode) :
    finalizeUpd x e ∈ (navFold e s pks).finalizedEvents := by
  induction pks generalizing s with
  | nil => exact absurd hpin (List.not_mem_nil _)
  | cons pg pks ih =>
    rw [navFold_cons]
    by_cases hpg : pg = p
    · subst hpg
      rw [if_neg hp]
      obtain ⟨comps, hc, hqk⟩ := openAt_mem_keys s pg q x hx
      have hqin : q ∈ ((lookupA s.pages pg).getD []).map Prod.fst := by
        rw [hc]; simpa using hqk
      have hmem := mem_finalized_sweepComps e pg
        (((lookupA s.pages pg).getD []).map Prod.fst) s q x hWF hqin hx hm
      obtain ⟨l2, hl2⟩ := finalizedExt_navFold e pks
        (sweepComps e pg s (((lookupA s.pages pg).getD []).map Prod.fst))
      rw [hl2]
      exact List.mem_append_left _ hmem
    · have hpin2 : p ∈ pks := by
        rcases List.mem_cons.mp hpin with h1 | h1
        · exact absurd h1.symm hpg
        · exact h1
      by_cases hpge : pg = jkey e.page
      · rw [if_pos hpge]; exact ih s hWF hpin2 hx
      · rw [if_neg hpge]
        refine ih _ (WF_sweepComps _ _ _ _ hWF) hpin2 ?_
        rw [openAt_sweepComps_otherpage _ _ _ _ _ _ hWF (fun hc => hpg hc.symm)]
        exact hx

/-- Concrete state for exercising the cross-page sweep: page p1 holds an
open `next_event_same_component` event, an open `page_change` event and an
open `next_event` event, spread over two components. -/
def c4ev1 : Event :=
  { page := .str "p1", component := .str "c1",
    mode := FINALIZE_NEXT_EVENT_SAME_COMPONENT, id := 0, time := 0 }

def c4ev2 : Event :=
  { page := .str "p1", component := .str "c1",
    mode := FINALIZE_NEXT_EVENT, id := 1, time := 1 }

def c4ev3 : Event :=
  { page := .str "p1", component := .str "c2",
    mode := FINALIZE_PAGE_CHANGE, id := 2, time := 2 }

def c4State : State :=
  { validProps := [],
    eventCount := 3,
    lastEvent := some c4ev3,
    unfinalizedEvents := [(0, c4ev1), (1, c4ev2), (2, c4ev3)],
    pages := [("p1", [("c1", { unfinalizedEvents := [c4ev1, c4ev2] }),
                      ("c2", { unfinalizedEvents := [c4ev3] })])] }

def c4cause : Event :=
  { page := .str "p2", component := .str "cx", id := 3, time := 9 }

/-- Claim C4: on arrival of a new event `E`, the cross-page sweep
(`_finalizeNavChangeEvents`) finalizes, for every page other than
`E.page` and every component under it, exactly the open events there
whose mode is `page_change` or `next_event_same_component`, with `E` as
the cause; open events on other pages with mode `next_event` are not
finalized by this sweep and stay in their open lists. -/
theorem C4_cross_page_sweep (s : State) (e : Event) (p q : String)
    (hWF : WFStore s) (hp : p ≠ jkey e.page) :
    (openAt (finalizeNavChangeEvents s e) p q
      = (openAt s p q).filter (fun y =>
          !([FINALIZE_NEXT_EVENT_SAME_COMPONENT, FINALIZE_PAGE_CHANGE].contains y.mode)))
    ∧ (∀ x ∈ openAt s p q,
        [FINALIZE_NEXT_EVENT_SAME_COMPONENT, FINALIZE_PAGE_CHANGE].contains x.mode →
          finalizeUpd x e ∈ (finalizeNavChangeEvents s e).finalizedEvents)
    ∧ (∀ x ∈ openAt s p q, x.mode = FINALIZE_NEXT_EVENT →
        x ∈ openAt (finalizeNavChangeEvents s e) p q) := by
  have hnd : (s.pages.map Prod.fst).Nodup := hWF.1
  by_cases hpin : p ∈ s.pages.map Prod.fst
  · have h1 : openAt (finalizeNavChangeEvents s e) p q
        = (openAt s p q).filter (fun y =>
            !([FINALIZE_NEXT_EVENT_SAME_COMPONENT, FINALIZE_PAGE_CHANGE].contains y.mode)) :=
      openAt_navFold_target e _ s p q hWF hnd hp hpin
    refine ⟨h1, ?_, ?_⟩
    · intro x hx hm
      exact mem_finalized_navFold e _ s p q x hWF hp hpin hx hm
    · intro x hx hmode
      rw [h1]
      refine List.mem_filter.mpr ⟨hx, ?_⟩
      rw [hmode]
      decide
  · have hnone : openAt s p q = [] := by
      unfold openAt
      rw [(lookupA_eq_none _ _).mpr hpin]
    have h1 : openAt (finalizeNavChangeEvents s e) p q = openAt s p q :=
      openAt_navFold_notin e _ s p q hWF hpin
    refine ⟨?_, ?_, ?_⟩
    · rw [h1, hnone]
      rfl
    · intro x hx
      rw [hnone] at hx
      exact absurd hx (List.not_mem_nil x)
    · intro x hx
      rw [hnone] at hx
      exact absurd hx (List.not_mem_nil x)

/-- Witness for C4 at a concrete state: after the sweep caused by an
event on page p2, page p1's `next_event_same_component` and `page_change`
events are finalized into the queue and only the `next_event` event is
left open. -/
theorem C4_cross_page_sweep_witness :
    openAt (finalizeNavChangeEvents c4State c4cause) "p1" "c1" = [c4ev2]
    ∧ finalizeUpd c4ev1 c4cause ∈ (finalizeNavChangeEvents c4State c4cause).finalizedEvents
    ∧ c4ev2 ∈ openAt (finalizeNavChangeEvents c4State c4cause) "p1" "c1" := by
  have h := C4_cross_page_sweep c4State c4cause "p1" "c1" (by decide) (by decide)
  refine ⟨?_, ?_, ?_⟩
  · rw [h.1]
    decide
  · exact h.2.1 c4ev1 (by decide) (by decide)
  · exact h.2.2 c4ev2 (by decide) (by decide)

theorem finalized_storeEvent (s : State) (e : Event) :
    (storeEvent s e).finalizedEvents = s.finalizedEvents := by
  unfold storeEvent
  by_cases h : e.mode ≠ FINALIZE_IMMEDIATE <;> simp [h]

theorem lastEvent_storeEvent (s : State) (e : Event) :
    (storeEvent s e).lastEvent = some e := by
  unfold storeEvent
  by_cases h : e.mode ≠ FINALIZE_IMMEDIATE <;> simp [h]

theorem eventCount_storeEvent (s : State) (e : Event) :
    (storeEvent s e).eventCount = s.eventCount := by
  unfold storeEvent
  by_cases h : e.mode ≠ FINALIZE_IMMEDIATE <;> simp [h]

theorem openAt_storeEvent (s : State) (e : Event) (p q : String) :
    openAt (storeEvent s e) p q
      = if p = jkey e.page ∧ q = jkey e.component then
          (if e.mode ≠ FINALIZE_IMMEDIATE then openAt s p q ++ [e] else openAt s p q)
        else openAt s p q := by
  by_cases hp : p = jkey e.page
  · by_cases hq : q = jkey e.component
    · subst hp; subst hq
      rw [if_pos ⟨rfl, rfl⟩]
      unfold storeEvent openAt
      cases h1 : lookupA s.pages (jkey e.page) with
      | none =>
        by_cases hm : e.mode ≠ FINALIZE_IMMEDIATE <;>
          simp [h1, hm, lookupA_setA_self, lookupA_updateA_self, lookupA, emptyCompStore]
      | some comps =>
        cases h2 : lookupA comps (jkey e.component) with
        | none =>
          by_cases hm : e.mode ≠ FINALIZE_IMMEDIATE <;>
            simp [h1, h2, hm, lookupA_setA_self, lookupA_updateA_self, emptyCompStore]
        | some cs =>
          by_cases hm : e.mode ≠ FINALIZE_IMMEDIATE <;>
            simp [h1, h2, hm, lookupA_setA_self, lookupA_updateA_self]
    · rw [if_neg (fun hc => hq hc.2)]
      subst hp
      unfold storeEvent openAt
      cases h1 : lookupA s.pages (jkey e.page) with
      | none =>
        by_cases hm : e.mode ≠ FINALIZE_IMMEDIATE <;>
          simp [h1, hm, lookupA_setA_self, lookupA_updateA_self,
            lookupA_setA_ne _ _ _ _ hq, lookupA_updateA_ne _ _ _ _ hq, lookupA,
            Ne.symm hq]
      | some comps =>
        cases h2 : lookupA comps (jkey e.component) with
        | none =>
          by_cases hm : e.mode ≠ FINALIZE_IMMEDIATE <;>
            simp [h1, h2, hm, lookupA_setA_self, lookupA_updateA_self,
              lookupA_setA_ne _ _ _ _ hq, lookupA_updateA_ne _ _ _ _ hq, Ne.symm hq]
        | some cs =>
          by_cases hm : e.mode ≠ FINALIZE_IMMEDIATE <;>
            simp [h1, h2, hm, lookupA_setA_self, lookupA_updateA_self,
              lookupA_setA_ne _ _ _ _ hq, lookupA_updateA_ne _ _ _ _ hq, Ne.symm hq]
  · rw [if_neg (fun hc => hp hc.1)]
    unfold storeEvent openAt
    cases h1 : lookupA s.pages (jkey e.page) with
    | none =>
      by_cases hm : e.mode ≠ FINALIZE_IMMEDIATE <;>
        simp [h1, hm, lookupA_setA_self, lookupA_updateA_self, lookupA,
          lookupA_setA_ne _ _ _ _ hp, lookupA_updateA_ne _ _ _ _ hp]
    | some comps =>
      cases h2 : lookupA comps (jkey e.component) with
      | none =>
        by_cases hm : e.mode ≠ FINALIZE_IMMEDIATE <;>
          simp [h1, h2, hm, lookupA_setA_self, lookupA_updateA_self,
            lookupA_setA_ne _ _ _ _ hp, lookupA_updateA_ne _ _ _ _ hp]
      | some cs =>
        by_cases hm : e.mode ≠ FINALIZE_IMMEDIATE <;>
          simp [h1, h2, hm, lookupA_setA_self, lookupA_updateA_self,
            lookupA_setA_ne _ _ _ _ hp, lookupA_updateA_ne _ _ _ _ hp]

theorem flat_storeEvent_imm (s : State) (e : Event) (h : e.mode = FINALIZE_IMMEDIATE) :
    (storeEvent s e).unfinalizedEvents = s.unfinalizedEvents := by
  unfold storeEvent
  simp [h]

theorem WF_finalizeNavChangeEvents (s : State) (e : Event) (hWF : WFpages s.pages) :
    WFpages (finalizeNavChangeEvents s e).pages :=
  WF_navFold e _ s hWF

theorem lastEvent_finalizeNavChangeEvents (s : State) (e : Event) :
    (finalizeNavChangeEvents s e).lastEvent = s.lastEvent :=
  lastEvent_navFold e _ s

theorem eventCount_finalizeNavChangeEvents (s : State) (e : Event) :
    (finalizeNavChangeEvents s e).eventCount = s.eventCount :=
  eventCount_navFold e _ s

theorem openAt_finalizeNavChangeEvents_eventpage (s : State) (e : Event) (q : String)
    (hWF : WFpages s.pages) :
    openAt (finalizeNavChangeEvents s e) (jkey e.page) q = openAt s (jkey e.page) q :=
  openAt_navFold_eventpage e _ s q hWF

theorem lastEvent_checkLastEventNext (s : State) (e : Event) :
    (checkLastEventNext s e).lastEvent = s.lastEvent := by
  unfold checkLastEventNext
  cases hsl : s.lastEvent with
  | none => exact hsl
  | some le =>
    by_cases hm : le.mode = FINALIZE_NEXT_EVENT
    · simp only [if_pos hm, lastEvent_finalizeEvent, hsl]
    · simp only [if_neg hm, hsl]

theorem eventCount_checkLastEventNext (s : State) (e : Event) :
    (checkLastEventNext s e).eventCount = s.eventCount := by
  unfold checkLastEventNext
  cases hsl : s.lastEvent with
  | none => rfl
  | some le =>
    by_cases hm : le.mode = FINALIZE_NEXT_EVENT
    · simp only [if_pos hm, eventCount_finalizeEvent]
    · simp only [if_neg hm]

theorem finalizedExt_checkLastEventNext (s : State) (e : Event) :
    ∃ l, (checkLastEventNext s e).finalizedEvents = s.finalizedEvents ++ l := by
  unfold checkLastEventNext
  cases hsl : s.lastEvent with
  | none => exact ⟨[], by simp⟩
  | some le =>
    by_cases hm : le.mode = FINALIZE_NEXT_EVENT
    · simp only [if_pos hm, finalized_finalizeEvent]
      exact ⟨[finalizeUpd le e], rfl⟩
    · simp only [if_neg hm]
      exact ⟨[], by simp⟩

theorem lastEvent_finalizePreviousEvents (s : State) (e : Event) :
    (finalizePreviousEvents s e).lastEvent = s.lastEvent := by
  unfold finalizePreviousEvents
  rw [lastEvent_checkLastEventNext, lastEvent_finalizeComponentEvents,
    lastEvent_finalizeNavChangeEvents]

theorem eventCount_finalizePreviousEvents (s : State) (e : Event) :
    (finalizePreviousEvents s e).eventCount = s.eventCount := by
  unfold finalizePreviousEvents
  rw [eventCount_checkLastEventNext, eventCount_finalizeComponentEvents,
    eventCount_finalizeNavChangeEvents]

theorem finalizedExt_finalizePreviousEvents (s : State) (e : Event) :
    ∃ l, (finalizePreviousEvents s e).finalizedEvents = s.finalizedEvents ++ l := by
  unfold finalizePreviousEvents
  obtain ⟨l1, hl1⟩ := finalizedExt_navFold e (s.pages.map Prod.fst) s
  have hnav : (finalizeNavChangeEvents s e).finalizedEvents = s.finalizedEvents ++ l1 := hl1
  have hfce := finalized_finalizeComponentEvents (finalizeNavChangeEvents s e) e
      (jkey e.page) (jkey e.component) [FINALIZE_NEXT_EVENT_SAME_COMPONENT]
  obtain ⟨l3, hl3⟩ := finalizedExt_checkLastEventNext
    (finalizeComponentEvents (finalizeNavChangeEvents s e) e (jkey e.page)
      (jkey e.component) [FINALIZE_NEXT_EVENT_SAME_COMPONENT]) e
  refine ⟨l1 ++ ((List.filter (fun x => [FINALIZE_NEXT_EVENT_SAME_COMPONENT].contains x.mode)
      (openAt (finalizeNavChangeEvents s e) (jkey e.page) (jkey e.component))).map
        (fun x => finalizeUpd x e) ++ l3), ?_⟩
  rw [hl3, hfce, hnav]
  simp [List.append_assoc]

theorem mem_finalized_finalizePreviousEvents_next (s : State) (e le : Event)
    (hle : s.lastEvent = some le) (hm : le.mode = FINALIZE_NEXT_EVENT) :
    finalizeUpd le e ∈ (finalizePreviousEvents s e).finalizedEvents := by
  unfold finalizePreviousEvents checkLastEventNext
  have hle2 : (finalizeComponentEvents (finalizeNavChangeEvents s e) e (jkey e.page)
      (jkey e.component) [FINALIZE_NEXT_EVENT_SAME_COMPONENT]).lastEvent = some le := by
    rw [lastEvent_finalizeComponentEvents, lastEvent_finalizeNavChangeEvents, hle]
  rw [hle2]
  simp only [if_pos hm, finalized_finalizeEvent]
  exact List.mem_append_right _ (List.mem_singleton.mpr rfl)

theorem augmentEvent_fst_id (s : State) (e : Event) (now : Int) :
    (augmentEvent s e now).1.id = (s.eventCount : Int) := by
  unfold augmentEvent
  cases s.lastEvent <;> rfl

theorem augmentEvent_fst_mode (s : State) (e : Event) (now : Int) :
    (augmentEvent s e now).1.mode = e.mode := by
  unfold augmentEvent
  cases s.lastEvent <;> rfl

theorem augmentEvent_fst_page (s : State) (e : Event) (now : Int) :
    (augmentEvent s e now).1.page = e.page := by
  unfold augmentEvent
  cases s.lastEvent <;> rfl

theorem augmentEvent_fst_component (s : State) (e : Event) (now : Int) :
    (augmentEvent s e now).1.component = e.component := by
  unfold augmentEvent
  cases s.lastEvent <;> rfl

theorem augmentEvent_fst_time (s : State) (e : Event) (now : Int) :
    (augmentEvent s e now).1.time = now := by
  unfold augmentEvent
  cases s.lastEvent <;> rfl

theorem augmentEvent_fst_duration (s : State) (e : Event) (now : Int) :
    (augmentEvent s e now).1.duration = e.duration := by
  unfold augmentEvent
  cases s.lastEvent <;> rfl

theorem augmentEvent_snd (s : State) (e : Event) (now : Int) :
    (augmentEvent s e now).2 = { s with eventCount := s.eventCount + 1 } := by
  unfold augmentEvent
  cases s.lastEvent <;> rfl

theorem registerEvent_def (s : State) (ev : Event) (cfgMode : Option String) (now : Int) :
    registerEvent s ev cfgMode now
      = match validateEvent s.validProps (attachModeKey ev.keys) (resolveMode cfgMode) with
        | some err => (s, some err)
        | none => (registerEventOk s (preparedEvent ev cfgMode) now, none) :=
  rfl

theorem validateEvent_eq_none (vp keys : List String) (mode : String) :
    validateEvent vp keys mode = none ↔
      ((∀ k ∈ keys, k ∈ builtinProps ∨ k ∈ vp) ∧ mode ∈ FINALIZATION_MODES) := by
  unfold validateEvent
  cases hf : keys.find? (fun k => !(builtinProps.contains k || vp.contains k)) with
  | some k =>
    constructor
    · intro h
      exact absurd h (by simp)
    · rintro ⟨h1, h2⟩
      exfalso
      have hk := List.find?_some hf
      have hmem := List.mem_of_find?_eq_some hf
      have hor : (builtinProps.contains k || vp.contains k) = false := by
        simpa using hk
      rcases h1 k hmem with hb | hv2
      · simp [hb] at hor
      · simp [hv2] at hor
  | none =>
    have hall := List.find?_eq_none.mp hf
    by_cases hm : FINALIZATION_MODES.contains mode
    · simp only [if_pos hm]
      constructor
      · intro _
        refine ⟨?_, List.elem_iff.mp hm⟩
        intro k hk
        have h3 : k ∉ builtinProps → k ∈ vp := by
          simpa using hall k hk
        by_cases hb : k ∈ builtinProps
        · exact Or.inl hb
        · exact Or.inr (h3 hb)
      · intro _
        trivial
    · simp only [if_neg hm]
      constructor
      · intro h
        exact absurd h (by simp)
      · rintro ⟨h1, h2⟩
        exact absurd (List.elem_iff.mpr h2) hm

theorem forall_attachModeKey (keys vp : List String) :
    (∀ k ∈ attachModeKey keys, k ∈ builtinProps ∨ k ∈ vp)
      ↔ (∀ k ∈ keys, k ∈ builtinProps ∨ k ∈ vp) := by
  unfold attachModeKey
  by_cases h : keys.contains "_finalization_mode"
  · rw [if_pos h]
  · rw [if_neg h]
    constructor
    · intro hall k hk
      exact hall k (List.mem_append_left _ hk)
    · intro hall k hk
      rcases List.mem_append.mp hk with h1 | h1
      · exact hall k h1
      · rw [List.mem_singleton.mp h1]
        left
        decide

theorem registerEvent_snd_none_iff (s : State) (ev : Event) (cfgMode : Option String)
    (now : Int) :
    (registerEvent s ev cfgMode now).2 = none ↔
      validateEvent s.validProps (attachModeKey ev.keys) (resolveMode cfgMode) = none := by
  rw [registerEvent_def]
  cases hv : validateEvent s.validProps (attachModeKey ev.keys) (resolveMode cfgMode) with
  | some err => simp [hv]
  | none => simp [hv]

theorem registerEvent_fst_of_err (s : State) (ev : Event)
    (cfgMode : Option String) (now : Int) (err : RegError)
    (h : (registerEvent s ev cfgMode now).2 = some err) :
    (registerEvent s ev cfgMode now).1 = s := by
  rw [registerEvent_def] at h ⊢
  cases hv : validateEvent s.validProps (attachModeKey ev.keys) (resolveMode cfgMode) with
  | some err2 => rfl
  | none =>
    rw [hv] at h
    simp at h

theorem registerEvent_ok_eq (s : State) (ev : Event) (cfgMode : Option String)
    (now : Int) (h : (registerEvent s ev cfgMode now).2 = none) :
    (registerEvent s ev cfgMode now).1 = registerEventOk s (preparedEvent ev cfgMode) now := by
  rw [registerEvent_def] at h ⊢
  cases hv : validateEvent s.validProps (attachModeKey ev.keys) (resolveMode cfgMode) with
  | some err2 =>
    rw [hv] at h
    simp at h
  | none => rfl

/-- Claim C2: when `registerEvent` raises a validation error, the whole
registration is rejected with no state mutation: the resulting state —
flat open index, hierarchical index, last-event pointers, event counter
and finalized-events queue included — is exactly the state before the
call.  The throw happens inside `_validateEvent`, before `_augmentEvent`
increments the counter or anything else touches the instance. -/
theorem C2_validation_error_no_mutation (s : State) (ev : Event)
    (cfgMode : Option String) (now : Int) (err : RegError)
    (h : (registerEvent s ev cfgMode now).2 = some err) :
    (registerEvent s ev cfgMode now).1 = s :=
  registerEvent_fst_of_err s ev cfgMode now err h

/-- Witness for C2: a rejected registration (unrecognized key "bogus")
leaves a fresh instance state untouched. -/
theorem C2_validation_error_no_mutation_witness :
    (registerEvent (initState []) ({ keys := ["bogus"] } : Event) none 0).1 = initState []
    ∧ (registerEvent (initState []) ({ keys := ["bogus"] } : Event) none 0).2
        = some (RegError.invalidProperty "bogus") :=
  ⟨C2_validation_error_no_mutation (initState []) ({ keys := ["bogus"] } : Event) none 0
      (RegError.invalidProperty "bogus") (by decide), by decide⟩

/-- Counterexample to claim C3 as stated: the spec's built-in key set
omits `_finalization_mode`, which the code's `_builtinProps` contains.
An event whose only property key is `_finalization_mode` lies outside the
spec's set (with `valid_props = []`), so the claim says registration must
fail — yet the code accepts it. -/
theorem C3_counterexample_finalization_mode_key :
    (registerEvent (initState []) ({ keys := ["_finalization_mode"] } : Event) none 0).2 = none
    ∧ "_finalization_mode" ∉ specBuiltinProps ∧ "_finalization_mode" ∉ ([] : List String) := by
  refine ⟨by decide, by decide, by decide⟩

/-- Claim C3 as amended: `registerEvent` fails exactly when the event has
a property key outside `_builtinProps` (which includes
`_finalization_mode`, the key `registerEvent` itself assigns before
validating) union the configured `valid_props`, or when the resolved
finalization mode is not one of the four enumerated modes. -/
theorem C3_validation_criterion (s : State) (ev : Event) (cfgMode : Option String)
    (now : Int) :
    (registerEvent s ev cfgMode now).2 = none ↔
      ((∀ k ∈ ev.keys, k ∈ builtinProps ∨ k ∈ s.validProps)
        ∧ resolveMode cfgMode ∈ FINALIZATION_MODES) := by
  rw [registerEvent_snd_none_iff, validateEvent_eq_none, forall_attachModeKey]

theorem id_finalizeUpd (e cause : Event) : (finalizeUpd e cause).id = e.id := rfl

theorem mode_finalizeUpd (e cause : Event) : (finalizeUpd e cause).mode = e.mode := rfl

theorem page_finalizeUpd (e cause : Event) : (finalizeUpd e cause).page = e.page := rfl

theorem component_finalizeUpd (e cause : Event) :
    (finalizeUpd e cause).component = e.component := rfl

theorem time_finalizeUpd (e cause : Event) : (finalizeUpd e cause).time = e.time := rfl

theorem eventCount_registerEventOk (s : State) (e0 : Event) (now : Int) :
    (registerEventOk s e0 now).eventCount = s.eventCount + 1 := by
  unfold registerEventOk
  by_cases him : (augmentEvent s e0 now).1.mode = FINALIZE_IMMEDIATE
  · rw [if_pos him, eventCount_storeEvent, eventCount_finalizePreviousEvents,
      eventCount_finalizeEvent, augmentEvent_snd]
  · rw [if_neg him, eventCount_storeEvent, eventCount_finalizePreviousEvents,
      augmentEvent_snd]

theorem lastEvent_registerEventOk (s : State) (e0 : Event) (now : Int) :
    (registerEventOk s e0 now).lastEvent
      = some (if (augmentEvent s e0 now).1.mode = FINALIZE_IMMEDIATE then
          finalizeUpd (augmentEvent s e0 now).1 (syntheticCause now)
        else (augmentEvent s e0 now).1) := by
  unfold registerEventOk
  by_cases him : (augmentEvent s e0 now).1.mode = FINALIZE_IMMEDIATE
  · rw [if_pos him, if_pos him, lastEvent_storeEvent]
  · rw [if_neg him, if_neg him, lastEvent_storeEvent]

theorem registerEvent_ok_eventCount (s : State) (ev : Event) (cfgMode : Option String)
    (now : Int) (h : (registerEvent s ev cfgMode now).2 = none) :
    (registerEvent s ev cfgMode now).1.eventCount = s.eventCount + 1 := by
  rw [registerEvent_ok_eq s ev cfgMode now h, eventCount_registerEventOk]

theorem registerEvent_ok_lastEvent_id (s : State) (ev : Event) (cfgMode : Option String)
    (now : Int) (h : (registerEvent s ev cfgMode now).2 = none) :
    ∃ le, (registerEvent s ev cfgMode now).1.lastEvent = some le
      ∧ le.id = (s.eventCount : Int) := by
  rw [registerEvent_ok_eq s ev cfgMode now h, lastEvent_registerEventOk]
  refine ⟨_, rfl, ?_⟩
  by_cases him : (augmentEvent s (preparedEvent ev cfgMode) now).1.mode = FINALIZE_IMMEDIATE
  · rw [if_pos him, id_finalizeUpd, augmentEvent_fst_id]
  · rw [if_neg him, augmentEvent_fst_id]

theorem registerAll_ids (calls : List RegCall) (s : State) :
    (registerAll s calls).2
      = (List.range (registerAll s calls).2.length).map
          (fun i => ((s.eventCount + i : Nat) : Int)) := by
  induction calls generalizing s with
  | nil => rfl
  | cons call rest ih =>
    cases h2 : (registerEvent s call.event call.cfgMode call.now).2 with
    | some err =>
      have hfst := registerEvent_fst_of_err s call.event call.cfgMode call.now err h2
      unfold registerAll
      rw [h2]
      simp only []
      rw [hfst]
      exact ih s
    | none =>
      obtain ⟨le, hle, hid⟩ :=
        registerEvent_ok_lastEvent_id s call.event call.cfgMode call.now h2
      have hec := registerEvent_ok_eventCount s call.event call.cfgMode call.now h2
      have ihr := ih (registerEvent s call.event call.cfgMode call.now).1
      rw [hec] at ihr
      unfold registerAll
      rw [h2, hle]
      simp only [List.length_cons, List.range_succ_eq_map, List.map_cons, List.map_map]
      rw [hid]
      conv_lhs => rw [ihr]
      refine List.cons_eq_cons.mpr ⟨by simp, ?_⟩
      apply List.map_congr_left
      intro i hi
      simp only [Function.comp_apply]
      omega

/-- Claim C5: over any sequence of `registerEvent` calls on a fresh
instance, the `_event_id` values assigned to the successful registrations
are exactly 0, 1, 2, … in registration order — unique, strictly
increasing, gap-free — and a rejected registration consumes no id (the
counter is incremented only after validation passes). -/
theorem C5_event_ids_gapless (vp : List String) (calls : List RegCall) :
    (registerAll (initState vp) calls).2
      = (List.range (registerAll (initState vp) calls).2.length).map Int.ofNat := by
  conv_lhs => rw [registerAll_ids]
  apply List.map_congr_left
  intro i hi
  simp [initState]

theorem preparedEvent_mode (ev : Event) (c : Option String) :
    (preparedEvent ev c).mode = resolveMode c := rfl

theorem preparedEvent_page (ev : Event) (c : Option String) :
    (preparedEvent ev c).page = ev.page := rfl

theorem preparedEvent_component (ev : Event) (c : Option String) :
    (preparedEvent ev c).component = ev.component := rfl

theorem preparedEvent_duration (ev : Event) (c : Option String) :
    (preparedEvent ev c).duration = ev.duration := rfl

theorem nextPage_finalizeUpd (e cause : Event) :
    (finalizeUpd e cause).nextPage = some cause.page := rfl

theorem nextComponent_finalizeUpd (e cause : Event) :
    (finalizeUpd e cause).nextComponent = some cause.component := rfl

theorem finalizedFlag_finalizeUpd (e cause : Event) :
    (finalizeUpd e cause).finalized = true := rfl

theorem duration_finalizeUpd (e cause : Event) :
    (finalizeUpd e cause).duration
      = some (match e.duration with
          | some d => if d = 0 then cause.time - e.time else d
          | none => cause.time - e.time) := rfl

theorem lastEvent_augmentEvent_snd (s : State) (e : Event) (now : Int) :
    (augmentEvent s e now).2.lastEvent = s.lastEvent := by
  rw [augmentEvent_snd]

theorem registerEvent_two_calls (s : State) (ev1 : Event) (cfg1 : Option String)
    (t1 : Int) (ev2 : Event) (cfg2 : Option String) (t2 : Int)
    (hm : resolveMode cfg1 = FINALIZE_NEXT_EVENT)
    (h1 : (registerEvent s ev1 cfg1 t1).2 = none)
    (h2 : (registerEvent (registerEvent s ev1 cfg1 t1).1 ev2 cfg2 t2).2 = none) :
    ∃ y ∈ (registerEvent (registerEvent s ev1 cfg1 t1).1 ev2 cfg2 t2).1.finalizedEvents,
      y.id = (s.eventCount : Int) ∧ y.nextPage = some ev2.page
      ∧ y.nextComponent = some ev2.component ∧ y.finalized = true
      ∧ y.duration = some (match ev1.duration with
          | some d => if d = 0 then t2 - t1 else d
          | none => t2 - t1) := by
  have hs1 : (registerEvent s ev1 cfg1 t1).1
      = registerEventOk s (preparedEvent ev1 cfg1) t1 :=
    registerEvent_ok_eq _ _ _ _ h1
  have hmode1 : (augmentEvent s (preparedEvent ev1 cfg1) t1).1.mode
      = FINALIZE_NEXT_EVENT := by
    rw [augmentEvent_fst_mode, preparedEvent_mode, hm]
  have him1 : ¬((augmentEvent s (preparedEvent ev1 cfg1) t1).1.mode
      = FINALIZE_IMMEDIATE) := by
    rw [hmode1]
    decide
  have hle1 : (registerEvent s ev1 cfg1 t1).1.lastEvent
      = some (augmentEvent s (preparedEvent ev1 cfg1) t1).1 := by
    rw [hs1, lastEvent_registerEventOk, if_neg him1]
  have hs2 : (registerEvent (registerEvent s ev1 cfg1 t1).1 ev2 cfg2 t2).1
      = registerEventOk (registerEvent s ev1 cfg1 t1).1 (preparedEvent ev2 cfg2) t2 :=
    registerEvent_ok_eq _ _ _ _ h2
  have hid1 : (augmentEvent s (preparedEvent ev1 cfg1) t1).1.id = (s.eventCount : Int) :=
    augmentEvent_fst_id _ _ _
  have hdur1 : (augmentEvent s (preparedEvent ev1 cfg1) t1).1.duration = ev1.duration := by
    rw [augmentEvent_fst_duration, preparedEvent_duration]
  have htime1 : (augmentEvent s (preparedEvent ev1 cfg1) t1).1.time = t1 :=
    augmentEvent_fst_time _ _ _
  by_cases him2 : (augmentEvent (registerEvent s ev1 cfg1 t1).1
      (preparedEvent ev2 cfg2) t2).1.mode = FINALIZE_IMMEDIATE
  · have hexp : registerEventOk (registerEvent s ev1 cfg1 t1).1 (preparedEvent ev2 cfg2) t2
        = storeEvent
            (finalizePreviousEvents
              (finalizeEvent
                (augmentEvent (registerEvent s ev1 cfg1 t1).1 (preparedEvent ev2 cfg2) t2).2
                (augmentEvent (registerEvent s ev1 cfg1 t1).1 (preparedEvent ev2 cfg2) t2).1
                (syntheticCause t2))
              (finalizeUpd
                (augmentEvent (registerEvent s ev1 cfg1 t1).1 (preparedEvent ev2 cfg2) t2).1
                (syntheticCause t2)))
            (finalizeUpd
              (augmentEvent (registerEvent s ev1 cfg1 t1).1 (preparedEvent ev2 cfg2) t2).1
              (syntheticCause t2)) := by
      unfold registerEventOk
      rw [if_pos him2]
    have hleX : (finalizeEvent
        (augmentEvent (registerEvent s ev1 cfg1 t1).1 (preparedEvent ev2 cfg2) t2).2
        (augmentEvent (registerEvent s ev1 cfg1 t1).1 (preparedEvent ev2 cfg2) t2).1
        (syntheticCause t2)).lastEvent
        = some (augmentEvent s (preparedEvent ev1 cfg1) t1).1 := by
      rw [lastEvent_finalizeEvent, lastEvent_augmentEvent_snd, hle1]
    have hmem := mem_finalized_finalizePreviousEvents_next _
      (finalizeUpd
        (augmentEvent (registerEvent s ev1 cfg1 t1).1 (preparedEvent ev2 cfg2) t2).1
        (syntheticCause t2)) _ hleX hmode1
    refine ⟨finalizeUpd (augmentEvent s (preparedEvent ev1 cfg1) t1).1
        (finalizeUpd
          (augmentEvent (registerEvent s ev1 cfg1 t1).1 (preparedEvent ev2 cfg2) t2).1
          (syntheticCause t2)), ?_, ?_, ?_, ?_, ?_, ?_⟩
    · rw [hs2, hexp, finalized_storeEvent]
      exact hmem
    · rw [id_finalizeUpd, hid1]
    · rw [nextPage_finalizeUpd, page_finalizeUpd, augmentEvent_fst_page, preparedEvent_page]
    · rw [nextComponent_finalizeUpd, component_finalizeUpd, augmentEvent_fst_component,
        preparedEvent_component]
    · rw [finalizedFlag_finalizeUpd]
    · rw [duration_finalizeUpd, hdur1, htime1, time_finalizeUpd, augmentEvent_fst_time]
  · have hexp : registerEventOk (registerEvent s ev1 cfg1 t1).1 (preparedEvent ev2 cfg2) t2
        = storeEvent
            (finalizePreviousEvents
              (augmentEvent (registerEvent s ev1 cfg1 t1).1 (preparedEvent ev2 cfg2) t2).2
              (augmentEvent (registerEvent s ev1 cfg1 t1).1 (preparedEvent ev2 cfg2) t2).1)
            (augmentEvent (registerEvent s ev1 cfg1 t1).1 (preparedEvent ev2 cfg2) t2).1 := by
      unfold registerEventOk
      rw [if_neg him2]
    have hleX : (augmentEvent (registerEvent s ev1 cfg1 t1).1
        (preparedEvent ev2 cfg2) t2).2.lastEvent
        = some (augmentEvent s (preparedEvent ev1 cfg1) t1).1 := by
      rw [lastEvent_augmentEvent_snd, hle1]
    have hmem := mem_finalized_finalizePreviousEvents_next _
      (augmentEvent (registerEvent s ev1 cfg1 t1).1 (preparedEvent ev2 cfg2) t2).1
      _ hleX hmode1
    refine ⟨finalizeUpd (augmentEvent s (preparedEvent ev1 cfg1) t1).1
        (augmentEvent (registerEvent s ev1 cfg1 t1).1 (preparedEvent ev2 cfg2) t2).1,
        ?_, ?_, ?_, ?_, ?_, ?_⟩
    · rw [hs2, hexp, finalized_storeEvent]
      exact hmem
    · rw [id_finalizeUpd, hid1]
    · rw [nextPage_finalizeUpd, augmentEvent_fst_page, preparedEvent_page]
    · rw [nextComponent_finalizeUpd, augmentEvent_fst_component, preparedEvent_component]
    · rw [finalizedFlag_finalizeUpd]
    · rw [duration_finalizeUpd, hdur1, htime1, augmentEvent_fst_time]

def c8ev1 : Event := { page := .str "p1", component := .str "c1" }

def c8ev2 : Event := { page := .str "p2", component := .str "c2" }

/-- Claim C8: an event registered with mode `next_event` is finalized by
the registration of exactly one subsequent event of any page and
component — an immediate-mode event included — and its `next_page` /
`next_component` are set to that new event's page and component. -/
theorem C8_next_event_finalized (s : State) (ev1 : Event) (cfg1 : Option String)
    (t1 : Int) (ev2 : Event) (cfg2 : Option String) (t2 : Int)
    (hm : resolveMode cfg1 = FINALIZE_NEXT_EVENT)
    (h1 : (registerEvent s ev1 cfg1 t1).2 = none)
    (h2 : (registerEvent (registerEvent s ev1 cfg1 t1).1 ev2 cfg2 t2).2 = none) :
    ∃ y ∈ (registerEvent (registerEvent s ev1 cfg1 t1).1 ev2 cfg2 t2).1.finalizedEvents,
      y.id = (s.eventCount : Int) ∧ y.nextPage = some ev2.page
      ∧ y.nextComponent = some ev2.component ∧ y.finalized = true := by
  obtain ⟨y, hy, hidy, hnp, hnc, hf, hd⟩ :=
    registerEvent_two_calls s ev1 cfg1 t1 ev2 cfg2 t2 hm h1 h2
  exact ⟨y, hy, hidy, hnp, hnc, hf⟩

/-- Witness for C8: a default-mode (`next_event`) registration followed by
an immediate-mode registration on another page finalizes the first event
with the second event's page and component as next context. -/
theorem C8_next_event_finalized_witness :
    ∃ y ∈ (registerEvent (registerEvent (initState []) c8ev1 none 0).1 c8ev2
        (some FINALIZE_IMMEDIATE) 5).1.finalizedEvents,
      y.id = ((initState []).eventCount : Int) ∧ y.nextPage = some (.str "p2")
      ∧ y.nextComponent = some (.str "c2") ∧ y.finalized = true :=
  C8_next_event_finalized (initState []) c8ev1 none 0 c8ev2 (some FINALIZE_IMMEDIATE) 5
    (by decide) (by decide) (by decide)

def c9ev1 : Event :=
  { keys := ["duration"], page := .str "a", component := .str "b", duration := some 0 }

def c9ev2 : Event := { page := .str "a", component := .str "c" }

/-- Counterexample to claim C9 as stated: an event that carries a duration
value of `0` (allowed through validation by declaring "duration" in
`valid_props`) does not keep it — `event.duration || newEvent.time -
event.time` treats the present-but-zero duration as absent, and the
finalized event gets the computed difference 5 instead. -/
theorem C9_counterexample_zero_duration :
    (registerEvent (registerEvent (initState ["duration"]) c9ev1 none 0).1
        c9ev2 none 5).1.finalizedEvents.map Event.duration = [some 5]
    ∧ c9ev1.duration = some 0 ∧ ¬(some 0 = some (5 : Int)) := by
  refine ⟨by decide, by decide, by decide⟩

/-- Claim C9 as amended: when an event is finalized, its duration is set
to the cause event's time minus its registration time whenever it carried
no duration of its own or carried a zero (JS-falsy) duration; a nonzero
duration already present is kept. -/
theorem C9_duration_rule (s : State) (ev1 : Event) (cfg1 : Option String)
    (t1 : Int) (ev2 : Event) (cfg2 : Option String) (t2 : Int)
    (hm : resolveMode cfg1 = FINALIZE_NEXT_EVENT)
    (h1 : (registerEvent s ev1 cfg1 t1).2 = none)
    (h2 : (registerEvent (registerEvent s ev1 cfg1 t1).1 ev2 cfg2 t2).2 = none) :
    ∃ y ∈ (registerEvent (registerEvent s ev1 cfg1 t1).1 ev2 cfg2 t2).1.finalizedEvents,
      y.id = (s.eventCount : Int)
      ∧ y.duration = some (match ev1.duration with
          | some d => if d = 0 then t2 - t1 else d
          | none => t2 - t1) := by
  obtain ⟨y, hy, hidy, hnp, hnc, hf, hd⟩ :=
    registerEvent_two_calls s ev1 cfg1 t1 ev2 cfg2 t2 hm h1 h2
  exact ⟨y, hy, hidy, hd⟩

/-- Witness for the amended C9: an event registered without a duration at
time 0 and finalized by an event at time 5 gets duration 5. -/
theorem C9_duration_rule_witness :
    ∃ y ∈ (registerEvent (registerEvent (initState []) c8ev1 none 0).1 c8ev2
        none 5).1.finalizedEvents,
      y.id = ((initState []).eventCount : Int) ∧ y.duration = some 5 := by
  have h := C9_duration_rule (initState []) c8ev1 none 0 c8ev2 none 5
    (by decide) (by decide) (by decide)
  simpa using h

theorem finalized_augmentEvent_snd (s : State) (e : Event) (now : Int) :
    (augmentEvent s e now).2.finalizedEvents = s.finalizedEvents := by
  rw [augmentEvent_snd]

theorem openAt_augmentEvent_snd (s : State) (e : Event) (now : Int) (p q : String) :
    openAt (augmentEvent s e now).2 p q = openAt s p q := by
  rw [augmentEvent_snd]
  rfl

theorem flat_augmentEvent_snd (s : State) (e : Event) (now : Int) :
    (augmentEvent s e now).2.unfinalizedEvents = s.unfinalizedEvents := by
  rw [augmentEvent_snd]

theorem openAt_checkLastEventNext_sub (s : State) (e : Event) (p q : String)
    (x : Event) (hx : x ∈ openAt (checkLastEventNext s e) p q) : x ∈ openAt s p q := by
  unfold checkLastEventNext at hx
  split at hx
  · next le hle =>
    split at hx
    · exact openAt_finalizeEvent_sub _ _ _ _ _ _ hx
    · exact hx
  · exact hx

theorem flat_checkLastEventNext_sub (s : State) (e : Event) (kv : Int × Event)
    (hkv : kv ∈ (checkLastEventNext s e).unfinalizedEvents) :
    kv ∈ s.unfinalizedEvents := by
  unfold checkLastEventNext at hkv
  split at hkv
  · next le hle =>
    split at hkv
    · exact flat_finalizeEvent_sub _ _ _ _ hkv
    · exact hkv
  · exact hkv

theorem openAt_finalizePreviousEvents_sub (s : State) (e : Event) (p q : String)
    (x : Event) (hx : x ∈ openAt (finalizePreviousEvents s e) p q) :
    x ∈ openAt s p q := by
  unfold finalizePreviousEvents at hx
  have h1 := openAt_checkLastEventNext_sub _ _ _ _ _ hx
  have h2 := openAt_finalizeComponentEvents_sub _ _ _ _ _ _ _ _ h1
  exact openAt_navFold_sub _ _ _ _ _ _ h2

theorem flat_finalizePreviousEvents_sub (s : State) (e : Event) (kv : Int × Event)
    (hkv : kv ∈ (finalizePreviousEvents s e).unfinalizedEvents) :
    kv ∈ s.unfinalizedEvents := by
  unfold finalizePreviousEvents at hkv
  have h1 := flat_checkLastEventNext_sub _ _ _ hkv
  have h2 := flat_finalizeComponentEvents_sub _ _ _ _ _ _ h1
  exact flat_navFold_sub _ _ _ _ h2

theorem openAt_storeEvent_imm (s : State) (e : Event) (h : e.mode = FINALIZE_IMMEDIATE)
    (p q : String) : openAt (storeEvent s e) p q = openAt s p q := by
  rw [openAt_storeEvent]
  by_cases hpq : p = jkey e.page ∧ q = jkey e.component
  · rw [if_pos hpq, if_neg (by simp [h])]
  · rw [if_neg hpq]

/-- Claim C6: an event registered with mode `immediate` is finalized
during its own `registerEvent` call against the synthetic cause
`{page: "", component: "", _event_id: -1, time: now}`, and is appended to
the delivery queue first — at the position right after the queue's
previous contents, before any sweep over other open events appends
anything.  It is never inserted into the flat open index or any
per-(page, component) open list: the call adds nothing to any open
list. -/
theorem C6_immediate_mode (s : State) (ev : Event) (now : Int)
    (h : (registerEvent s ev (some FINALIZE_IMMEDIATE) now).2 = none) :
    ((registerEvent s ev (some FINALIZE_IMMEDIATE) now).1.finalizedEvents[s.finalizedEvents.length]?
      = some (finalizeUpd
          (augmentEvent s (preparedEvent ev (some FINALIZE_IMMEDIATE)) now).1
          (syntheticCause now)))
    ∧ (finalizeUpd (augmentEvent s (preparedEvent ev (some FINALIZE_IMMEDIATE)) now).1
        (syntheticCause now)).nextPage = some (.str "")
    ∧ (finalizeUpd (augmentEvent s (preparedEvent ev (some FINALIZE_IMMEDIATE)) now).1
        (syntheticCause now)).nextComponent = some (.str "")
    ∧ (finalizeUpd (augmentEvent s (preparedEvent ev (some FINALIZE_IMMEDIATE)) now).1
        (syntheticCause now)).finalized = true
    ∧ (finalizeUpd (augmentEvent s (preparedEvent ev (some FINALIZE_IMMEDIATE)) now).1
        (syntheticCause now)).id = (s.eventCount : Int)
    ∧ (∀ p q x, x ∈ openAt (registerEvent s ev (some FINALIZE_IMMEDIATE) now).1 p q →
        x ∈ openAt s p q)
    ∧ (∀ kv, kv ∈ (registerEvent s ev (some FINALIZE_IMMEDIATE) now).1.unfinalizedEvents →
        kv ∈ s.unfinalizedEvents) := by
  have hs := registerEvent_ok_eq s ev (some FINALIZE_IMMEDIATE) now h
  have hmode : (augmentEvent s (preparedEvent ev (some FINALIZE_IMMEDIATE)) now).1.mode
      = FINALIZE_IMMEDIATE := by
    rw [augmentEvent_fst_mode, preparedEvent_mode]
    decide
  have hexp : registerEventOk s (preparedEvent ev (some FINALIZE_IMMEDIATE)) now
      = storeEvent
          (finalizePreviousEvents
            (finalizeEvent
              (augmentEvent s (preparedEvent ev (some FINALIZE_IMMEDIATE)) now).2
              (augmentEvent s (preparedEvent ev (some FINALIZE_IMMEDIATE)) now).1
              (syntheticCause now))
            (finalizeUpd
              (augmentEvent s (preparedEvent ev (some FINALIZE_IMMEDIATE)) now).1
              (syntheticCause now)))
          (finalizeUpd
            (augmentEvent s (preparedEvent ev (some FINALIZE_IMMEDIATE)) now).1
            (syntheticCause now)) := by
    unfold registerEventOk
    rw [if_pos hmode]
  obtain ⟨l, hl⟩ := finalizedExt_finalizePreviousEvents
    (finalizeEvent
      (augmentEvent s (preparedEvent ev (some FINALIZE_IMMEDIATE)) now).2
      (augmentEvent s (preparedEvent ev (some FINALIZE_IMMEDIATE)) now).1
      (syntheticCause now))
    (finalizeUpd
      (augmentEvent s (preparedEvent ev (some FINALIZE_IMMEDIATE)) now).1
      (syntheticCause now))
  have hq : (registerEvent s ev (some FINALIZE_IMMEDIATE) now).1.finalizedEvents
      = s.finalizedEvents
        ++ ([finalizeUpd
              (augmentEvent s (preparedEvent ev (some FINALIZE_IMMEDIATE)) now).1
              (syntheticCause now)] ++ l) := by
    rw [hs, hexp, finalized_storeEvent, hl, finalized_finalizeEvent,
      finalized_augmentEvent_snd, List.append_assoc]
  have hget : (registerEvent s ev
        (some FINALIZE_IMMEDIATE) now).1.finalizedEvents[s.finalizedEvents.length]?
      = some (finalizeUpd
          (augmentEvent s (preparedEvent ev (some FINALIZE_IMMEDIATE)) now).1
          (syntheticCause now)) := by
    rw [hq, List.getElem?_append_right (le_refl _)]
    simp
  refine ⟨hget, rfl, rfl, rfl, ?_, ?_, ?_⟩
  · rw [id_finalizeUpd, augmentEvent_fst_id]
  · intro p q x hx
    rw [hs, hexp] at hx
    rw [openAt_storeEvent_imm _ _ (by rw [mode_finalizeUpd]; exact hmode)] at hx
    have h2 := openAt_finalizePreviousEvents_sub _ _ _ _ _ hx
    have h3 := openAt_finalizeEvent_sub _ _ _ _ _ _ h2
    rw [openAt_augmentEvent_snd] at h3
    exact h3
  · intro kv hkv
    rw [hs, hexp] at hkv
    rw [flat_storeEvent_imm _ _ (by rw [mode_finalizeUpd]; exact hmode)] at hkv
    have h2 := flat_finalizePreviousEvents_sub _ _ _ hkv
    have h3 := flat_finalizeEvent_sub _ _ _ _ h2
    rw [flat_augmentEvent_snd] at h3
    exact h3

def c6ev : Event := { page := .str "p", component := .str "c" }

/-- Witness for C6: on a fresh instance, an immediate-mode registration
puts its finalized event (with the synthetic empty cause) at queue
position 0 and leaves every open list empty as before. -/
theorem C6_immediate_mode_witness :
    ((registerEvent (initState []) c6ev (some FINALIZE_IMMEDIATE) 7).1.finalizedEvents[0]?
      = some (finalizeUpd
          (augmentEvent (initState []) (preparedEvent c6ev (some FINALIZE_IMMEDIATE)) 7).1
          (syntheticCause 7)))
    ∧ (∀ p q x,
        x ∈ openAt (registerEvent (initState []) c6ev (some FINALIZE_IMMEDIATE) 7).1 p q →
          x ∈ openAt (initState []) p q) := by
  have h := C6_immediate_mode (initState []) c6ev 7 (by decide)
  exact ⟨h.1, h.2.2.2.2.2.1⟩

theorem mem_openAt_checkLastEventNext (s : State) (e : Event) (p q : String) (x : Event)
    (hx : x ∈ openAt s p q)
    (hlast : ∀ le, s.lastEvent = some le → le.mode = FINALIZE_NEXT_EVENT → le.id ≠ x.id) :
    x ∈ openAt (checkLastEventNext s e) p q := by
  unfold checkLastEventNext
  cases hsl : s.lastEvent with
  | none => exact hx
  | some le =>
    show x ∈ openAt (if le.mode = FINALIZE_NEXT_EVENT then finalizeEvent s le e else s) p q
    by_cases hm : le.mode = FINALIZE_NEXT_EVENT
    · rw [if_pos hm]
      by_cases hpq : p = jkey le.page ∧ q = jkey le.component
      · obtain ⟨hp2, hq2⟩ := hpq
        subst hp2
        subst hq2
        rw [openAt_finalizeEvent_self]
        refine List.mem_filter.mpr ⟨hx, ?_⟩
        simp only [ne_eq, decide_not, Bool.not_eq_eq_eq_not, Bool.not_true,
          decide_eq_false_iff_not]
        exact fun hc => hlast le hsl hm hc.symm
      · rw [openAt_finalizeEvent_other _ _ _ _ _ hpq]
        exact hx
    · rw [if_neg hm]
      exact hx

theorem mem_open_after_sweep_store (sMid : State) (eC : Event) (q : String) (x : Event)
    (hWF : WFpages sMid.pages)
    (hx : x ∈ openAt sMid (jkey eC.page) q)
    (hq : q ≠ jkey eC.component)
    (hlast : ∀ le, sMid.lastEvent = some le → le.mode = FINALIZE_NEXT_EVENT → le.id ≠ x.id) :
    x ∈ openAt (storeEvent (finalizePreviousEvents sMid eC) eC) (jkey eC.page) q := by
  have h1 : openAt (finalizeNavChangeEvents sMid eC) (jkey eC.page) q
      = openAt sMid (jkey eC.page) q :=
    openAt_finalizeNavChangeEvents_eventpage _ _ _ hWF
  have hWF1 : WFpages (finalizeNavChangeEvents sMid eC).pages :=
    WF_finalizeNavChangeEvents _ _ hWF
  have h2 : openAt (finalizeComponentEvents (finalizeNavChangeEvents sMid eC) eC
      (jkey eC.page) (jkey eC.component) [FINALIZE_NEXT_EVENT_SAME_COMPONENT])
      (jkey eC.page) q
      = openAt (finalizeNavChangeEvents sMid eC) (jkey eC.page) q :=
    openAt_finalizeComponentEvents_other _ _ _ _ _ _ _ hWF1 (fun hc => hq hc.2)
  have hle2 : (finalizeComponentEvents (finalizeNavChangeEvents sMid eC) eC
      (jkey eC.page) (jkey eC.component)
      [FINALIZE_NEXT_EVENT_SAME_COMPONENT]).lastEvent = sMid.lastEvent := by
    rw [lastEvent_finalizeComponentEvents, lastEvent_finalizeNavChangeEvents]
  have hxf : x ∈ openAt (finalizeComponentEvents (finalizeNavChangeEvents sMid eC) eC
      (jkey eC.page) (jkey eC.component) [FINALIZE_NEXT_EVENT_SAME_COMPONENT])
      (jkey eC.page) q := by
    rw [h2, h1]
    exact hx
  have hxc := mem_openAt_checkLastEventNext _ eC _ _ _ hxf
    (fun le hle => hlast le (by rw [← hle2]; exact hle))
  rw [openAt_storeEvent]
  rw [if_neg (fun hc => hq hc.2)]
  exact hxc

/-- Claim C7: an open `next_event_same_component` event at (P, C) is not
finalized by registering a new event on the same page P with a different
component: it is still open at (P, C) afterwards.  (The hypothesis on the
last-event pointer rules out a degenerate store in which a `next_event`
last event shares the open event's id; in every reachable state ids are
unique, and in the spec's scenario the last event is the open event
itself, whose mode is not `next_event`.) -/
theorem C7_same_page_different_component (s : State) (ev : Event) (cfg : Option String)
    (now : Int) (q : String) (x : Event)
    (hWF : WFStore s)
    (hx : x ∈ openAt s (jkey ev.page) q)
    (_hxm : x.mode = FINALIZE_NEXT_EVENT_SAME_COMPONENT)
    (hq : q ≠ jkey ev.component)
    (hlast : ∀ le, s.lastEvent = some le → le.mode = FINALIZE_NEXT_EVENT → le.id ≠ x.id)
    (hok : (registerEvent s ev cfg now).2 = none) :
    x ∈ openAt (registerEvent s ev cfg now).1 (jkey ev.page) q := by
  have hs := registerEvent_ok_eq s ev cfg now hok
  rw [hs]
  unfold registerEventOk
  by_cases him : (augmentEvent s (preparedEvent ev cfg) now).1.mode = FINALIZE_IMMEDIATE
  · rw [if_pos him]
    have hpage : (finalizeUpd (augmentEvent s (preparedEvent ev cfg) now).1
        (syntheticCause now)).page = ev.page := by
      rw [page_finalizeUpd, augmentEvent_fst_page, preparedEvent_page]
    have hcomp : (finalizeUpd (augmentEvent s (preparedEvent ev cfg) now).1
        (syntheticCause now)).component = ev.component := by
      rw [component_finalizeUpd, augmentEvent_fst_component, preparedEvent_component]
    have hjp : jkey (finalizeUpd (augmentEvent s (preparedEvent ev cfg) now).1
        (syntheticCause now)).page = jkey ev.page := by rw [hpage]
    have hjc : jkey (finalizeUpd (augmentEvent s (preparedEvent ev cfg) now).1
        (syntheticCause now)).component = jkey ev.component := by rw [hcomp]
    have hWFX : WFpages (finalizeEvent (augmentEvent s (preparedEvent ev cfg) now).2
        (augmentEvent s (preparedEvent ev cfg) now).1 (syntheticCause now)).pages := by
      apply WF_finalizeEvent
      rw [augmentEvent_snd]
      exact hWF
    have hxX : x ∈ openAt (finalizeEvent (augmentEvent s (preparedEvent ev cfg) now).2
        (augmentEvent s (preparedEvent ev cfg) now).1 (syntheticCause now))
        (jkey ev.page) q := by
      rw [openAt_finalizeEvent_other _ _ _ _ _ (fun hc => hq (by
        rw [hc.2, augmentEvent_fst_component, preparedEvent_component])),
        openAt_augmentEvent_snd]
      exact hx
    have hlastX : ∀ le, (finalizeEvent (augmentEvent s (preparedEvent ev cfg) now).2
        (augmentEvent s (preparedEvent ev cfg) now).1 (syntheticCause now)).lastEvent
          = some le → le.mode = FINALIZE_NEXT_EVENT → le.id ≠ x.id := by
      intro le hle hm
      rw [lastEvent_finalizeEvent, lastEvent_augmentEvent_snd] at hle
      exact hlast le hle hm
    have hres := mem_open_after_sweep_store
      (finalizeEvent (augmentEvent s (preparedEvent ev cfg) now).2
        (augmentEvent s (preparedEvent ev cfg) now).1 (syntheticCause now))
      (finalizeUpd (augmentEvent s (preparedEvent ev cfg) now).1 (syntheticCause now))
      q x hWFX (by rw [hjp]; exact hxX) (by rw [hjc]; exact hq) hlastX
    rw [hjp] at hres
    exact hres
  · rw [if_neg him]
    have hjp : jkey (augmentEvent s (preparedEvent ev cfg) now).1.page = jkey ev.page := by
      rw [augmentEvent_fst_page, preparedEvent_page]
    have hjc : jkey (augmentEvent s (preparedEvent ev cfg) now).1.component
        = jkey ev.component := by
      rw [augmentEvent_fst_component, preparedEvent_component]
    have hWFX : WFpages (augmentEvent s (preparedEvent ev cfg) now).2.pages := by
      rw [augmentEvent_snd]
      exact hWF
    have hxX : x ∈ openAt (augmentEvent s (preparedEvent ev cfg) now).2 (jkey ev.page) q := by
      rw [openAt_augmentEvent_snd]
      exact hx
    have hlastX : ∀ le, (augmentEvent s (preparedEvent ev cfg) now).2.lastEvent
        = some le → le.mode = FINALIZE_NEXT_EVENT → le.id ≠ x.id := by
      intro le hle hm
      rw [lastEvent_augmentEvent_snd] at hle
      exact hlast le hle hm
    have hres := mem_open_after_sweep_store
      (augmentEvent s (preparedEvent ev cfg) now).2
      (augmentEvent s (preparedEvent ev cfg) now).1
      q x hWFX (by rw [hjp]; exact hxX) (by rw [hjc]; exact hq) hlastX
    rw [hjp] at hres
    exact hres

def c7ev1 : Event :=
  { keys := ["user_id"], page := .str "feed", component := .str "feed_card" }

def c7ev2 : Event :=
  { keys := ["user_id"], page := .str "feed", component := .str "profile_image" }

def c7s1 : State :=
  (registerEvent (initState ["user_id"]) c7ev1
    (some FINALIZE_NEXT_EVENT_SAME_COMPONENT) 0).1

/-- The event as stored by the first registration of the spec's scenario. -/
def c7x : Event :=
  { keys := ["user_id", "_finalization_mode"], page := .str "feed",
    component := .str "feed_card", mode := FINALIZE_NEXT_EVENT_SAME_COMPONENT,
    id := 0, time := 0 }

/-- Witness for C7: the spec's scenario — register (feed, feed_card) with
mode `next_event_same_component`, then (feed, profile_image) — leaves the
first event open; afterwards nothing is finalized and two events are
open. -/
theorem C7_same_page_different_component_witness :
    c7x ∈ openAt (registerEvent c7s1 c7ev2 none 1).1 "feed" "feed_card"
    ∧ (registerEvent c7s1 c7ev2 none 1).1.finalizedEvents = []
    ∧ (registerEvent c7s1 c7ev2 none 1).1.unfinalizedEvents.length = 2 := by
  refine ⟨?_, by decide, by decide⟩
  exact C7_same_page_different_component c7s1 c7ev2 none 1 "feed_card" c7x
    (by decide) (by decide) (by decide) (by decide)
    (by
      intro le hle hm
      rw [show c7s1.lastEvent = some c7x from by decide] at hle
      have he := Option.some.inj hle
      rw [← he] at hm
      exact absurd hm (by decide))
    (by decide)

/-- Claim C10: `registerEvent` does not require `page` or `component`:
an event carrying neither (and otherwise-recognized keys and a recognized
non-immediate mode) passes validation, is registered, and is indexed in
the open store under the JS-coerced key "undefined" for both page and
component — despite the spec declaring both required at creation. -/
theorem C10_missing_page_component (s : State) (ev : Event) (cfg : Option String)
    (now : Int)
    (hpage : ev.page = .undef) (hcomp : ev.component = .undef)
    (hkeys : ∀ k ∈ ev.keys, k ∈ builtinProps ∨ k ∈ s.validProps)
    (hmv : resolveMode cfg ∈ FINALIZATION_MODES)
    (him : resolveMode cfg ≠ FINALIZE_IMMEDIATE) :
    (registerEvent s ev cfg now).2 = none
    ∧ ∃ y ∈ openAt (registerEvent s ev cfg now).1 "undefined" "undefined",
        y.id = (s.eventCount : Int) := by
  have hok : (registerEvent s ev cfg now).2 = none := by
    rw [registerEvent_snd_none_iff, validateEvent_eq_none, forall_attachModeKey]
    exact ⟨hkeys, hmv⟩
  refine ⟨hok, ?_⟩
  have hs := registerEvent_ok_eq s ev cfg now hok
  rw [hs]
  unfold registerEventOk
  have hmode : (augmentEvent s (preparedEvent ev cfg) now).1.mode = resolveMode cfg := by
    rw [augmentEvent_fst_mode, preparedEvent_mode]
  rw [if_neg (by rw [hmode]; exact him)]
  have hjp : jkey (augmentEvent s (preparedEvent ev cfg) now).1.page = "undefined" := by
    rw [augmentEvent_fst_page, preparedEvent_page, hpage]
    rfl
  have hjc : jkey (augmentEvent s (preparedEvent ev cfg) now).1.component = "undefined" := by
    rw [augmentEvent_fst_component, preparedEvent_component, hcomp]
    rfl
  refine ⟨(augmentEvent s (preparedEvent ev cfg) now).1, ?_, augmentEvent_fst_id _ _ _⟩
  rw [openAt_storeEvent, if_pos ⟨hjp.symm, hjc.symm⟩, if_pos (by rw [hmode]; exact him)]
  exact List.mem_append_right _ (List.mem_singleton.mpr rfl)

/-- Witness for C10: a fresh instance accepts an event with no keys at
all and stores it open under ("undefined", "undefined") with id 0. -/
theorem C10_missing_page_component_witness :
    (registerEvent (initState []) ({ keys := [] } : Event) none 3).2 = none
    ∧ ∃ y ∈ openAt (registerEvent (initState []) ({ keys := [] } : Event) none 3).1
        "undefined" "undefined", y.id = ((initState []).eventCount : Int) :=
  C10_missing_page_component (initState []) ({ keys := [] } : Event) none 3
    rfl rfl (by decide) (by decide) (by decide)

def c1ev : Event := { page := .str "feed", component := .str "feed_card", id := 0 }

/-- Counterexample to claim C1 as stated: `_flushFinalizedEvents` has no
exception handling, so when the first of two registered observers raises,
the loop aborts — only one callback is invoked and the observer
registered after the raising one never receives the batch (the claim
requires both of the two observers to be invoked). -/
theorem C1_counterexample_raising_observer :
    (flushFinalizedEvents [fun _ => true, fun _ => false] [c1ev]).invoked = 1
    ∧ ([fun _ => true, fun _ => false] : List FlushCallback).length = 2
    ∧ ¬((flushFinalizedEvents [fun _ => true, fun _ => false] [c1ev]).invoked = 2) := by
  refine ⟨rfl, rfl, by decide⟩

theorem flushLoop_append (cbs1 cbs2 : List FlushCallback) (cb : FlushCallback)
    (q : List Event) (h1 : ∀ c ∈ cbs1, c q = false) (h2 : cb q = true) :
    flushLoop (cbs1 ++ cb :: cbs2) q = (cbs1.length + 1, true) := by
  induction cbs1 with
  | nil => simp [flushLoop, h2]
  | cons c cs ih =>
    have hc : c q = false := h1 c (List.mem_cons_self _ _)
    have ih2 := ih (fun d hd => h1 d (List.mem_cons_of_mem _ hd))
    simp [flushLoop, hc, ih2]

/-- Claim C1 as amended: delivery is not exception-isolated — if the
observer at position `cbs1.length` raises mid-callback (with every
observer before it returning normally), the flush aborts: exactly the
observers up to and including the raising one are invoked, those
registered after it do not receive the batch in that drain cycle, and the
queue is left uncleared (so the batch is redelivered by the next
flush). -/
theorem C1_flush_abort_on_raise (cbs1 cbs2 : List FlushCallback) (cb : FlushCallback)
    (q : List Event) (h1 : ∀ c ∈ cbs1, c q = false) (h2 : cb q = true) :
    flushFinalizedEvents (cbs1 ++ cb :: cbs2) q
      = { invoked := cbs1.length + 1, raised := true, queue := q } := by
  unfold flushFinalizedEvents
  rw [flushLoop_append cbs1 cbs2 cb q h1 h2]
  rfl

/-- Witness for the amended C1: of three observers where the middle one
raises, exactly two are invoked and the queue keeps its backlog. -/
theorem C1_flush_abort_on_raise_witness :
    flushFinalizedEvents [fun _ => false, fun _ => true, fun _ => false] [c1ev]
      = { invoked := 2, raised := true, queue := [c1ev] } :=
  C1_flush_abort_on_raise [fun _ => false] [fun _ => false] (fun _ => true) [c1ev]
    (by
      intro c hc
      rw [List.mem_singleton] at hc
      subst hc
      rfl)
    rfl
